import Mathlib

/-!
Verification of the natural-language specification of `ghost-kali/seatable`
against the source in `src/main.py` (orchestrator `ai_sql` with its SQL
sanity filters, identifier extractor, allowed-name index and fuzzy matcher)
and `src/app.py` (thin HTTP wrapper, excluded from the core).

The Python code is shallowly embedded as executable Lean functions over
`List Char`.  Conventions of the embedding:

* Python strings are `List Char`; `String` appears only at the outermost
  statement level.  Unicode character classes (`\s`, `\d`, `\w`, `str.lower`,
  `str.strip`) are modelled on their ASCII behaviour plus the common Latin-1
  whitespace; every string manipulated by the program in the claims is ASCII.
* Python `set` objects are modelled as lists; the program only ever tests
  membership / emptiness of those sets, which is insensitive to order and
  duplication, so list-based `contains` / `any` is an exact model.
* Regular expressions from the source are compiled by hand into
  deterministic scanners; each scanner's doc comment cites the regex it
  implements.  Scanners whose scanning position can skip forward by more
  than one character use an explicit fuel argument bounded by the input
  length so that every definition reduces inside the kernel.
* `difflib.SequenceMatcher.ratio` is modelled exactly (Ratcliff–Obershelp:
  recursive longest-matching-block decomposition) as a rational number;
  the `autojunk` heuristic, which only activates on strings of length
  ≥ 200, is not modelled.  The float comparison `ratio >= 0.75` agrees with
  the exact rational comparison for all string lengths occurring here,
  since `2*M/T` can only be within 1/(4*T) of 3/4 when it equals it.
* Exceptions are modelled with `Except Unit`; the external `genai` model
  call is an oracle in the environment (`Env.modelResult`) that either
  raises or returns the response text.
-/

set_option maxRecDepth 8000

/-! ### Character classes (ASCII model of Python `\s`, `\d`, `\w`, `lower`) -/

/-- Single-quote character `'` (written via its code point to keep source plain). -/
def sqc : Char := Char.ofNat 39

/-- Double-quote character `"`. -/
def dqc : Char := Char.ofNat 34

/-- Backtick character. -/
def btc : Char := Char.ofNat 96

/-- Underscore character `_`. -/
def usc : Char := Char.ofNat 95

/-- Python `\s` / `str.strip` whitespace, restricted to the code points that can
occur in this program's strings (ASCII whitespace plus `\x1c`–`\x1f`, NEL, NBSP). -/
def pyIsSpace (c : Char) : Bool :=
  c.toNat = 32 || c.toNat = 9 || c.toNat = 10 || c.toNat = 11 ||
  c.toNat = 12 || c.toNat = 13 || c.toNat = 28 || c.toNat = 29 ||
  c.toNat = 30 || c.toNat = 31 || c.toNat = 133 || c.toNat = 160

/-- Python `\d` (ASCII). -/
def pyIsDigit (c : Char) : Bool := 48 ≤ c.toNat && c.toNat ≤ 57

/-- ASCII uppercase letter. -/
def pyIsUpper (c : Char) : Bool := 65 ≤ c.toNat && c.toNat ≤ 90

/-- ASCII lowercase letter. -/
def pyIsLower (c : Char) : Bool := 97 ≤ c.toNat && c.toNat ≤ 122

/-- ASCII letter. -/
def pyIsAlpha (c : Char) : Bool := pyIsUpper c || pyIsLower c

/-- The class `[a-zA-Z0-9_]`, which is also Python's `\w` on ASCII text. -/
def pyIsWordChar (c : Char) : Bool := pyIsAlpha c || pyIsDigit c || c.toNat = 95

/-- The class `[a-zA-Z_]` (first character of an identifier token). -/
def pyIsIdentStart (c : Char) : Bool := pyIsAlpha c || c.toNat = 95

/-- Model of `str.lower` on one character (ASCII model). -/
def pyLowerChar (c : Char) : Char :=
  if pyIsUpper c then Char.ofNat (c.toNat + 32) else c

/-- Model of `str.lower` (ASCII model). -/
def pyLowerL (l : List Char) : List Char := l.map pyLowerChar

/-- Model of `str.strip()` (drop leading and trailing whitespace). -/
def pyStripL (l : List Char) : List Char :=
  ((l.dropWhile pyIsSpace).reverse.dropWhile pyIsSpace).reverse

/-- Model of `re.fullmatch(r"\d+", n)`: nonempty and all digits. -/
def isNumericL (l : List Char) : Bool := !l.isEmpty && l.all pyIsDigit

/-! #### Basic character lemmas -/

theorem char_toNat_ofNat_valid (n : Nat) (h : n < 55296) :
    (Char.ofNat n).toNat = n := by
  rw [Char.ofNat, dif_pos (Or.inl (by exact_mod_cast h))]
  rfl

theorem pyIsUpper_iff (c : Char) :
    pyIsUpper c = true ↔ (65 ≤ c.toNat ∧ c.toNat ≤ 90) := by
  unfold pyIsUpper
  simp

theorem pyLowerChar_toNat (c : Char) :
    (pyLowerChar c).toNat =
      if 65 ≤ c.toNat ∧ c.toNat ≤ 90 then c.toNat + 32 else c.toNat := by
  unfold pyLowerChar
  rcases Decidable.em (65 ≤ c.toNat ∧ c.toNat ≤ 90) with h | h
  · rw [if_pos h, if_pos ((pyIsUpper_iff c).mpr h)]
    exact char_toNat_ofNat_valid _ (by omega)
  · rw [if_neg h, if_neg (fun hh => h ((pyIsUpper_iff c).mp hh))]

theorem pyIsUpper_pyLowerChar (c : Char) : pyIsUpper (pyLowerChar c) = false := by
  rw [Bool.eq_false_iff]
  intro hu
  have h2 := (pyIsUpper_iff _).mp hu
  rw [pyLowerChar_toNat] at h2
  rcases Decidable.em (65 ≤ c.toNat ∧ c.toNat ≤ 90) with h | h
  · rw [if_pos h] at h2; omega
  · rw [if_neg h] at h2; omega

theorem pyLowerChar_eq_self_of_not_upper (c : Char) (h : pyIsUpper c = false) :
    pyLowerChar c = c := by
  unfold pyLowerChar
  rw [h]
  simp

/-- Lowering is idempotent on characters. -/
theorem pyLowerChar_idem (c : Char) : pyLowerChar (pyLowerChar c) = pyLowerChar c :=
  pyLowerChar_eq_self_of_not_upper _ (pyIsUpper_pyLowerChar c)

/-- Lowering is idempotent on strings. -/
theorem pyLowerL_idem (l : List Char) : pyLowerL (pyLowerL l) = pyLowerL l := by
  unfold pyLowerL
  rw [List.map_map]
  exact List.map_congr_left (fun c _ => pyLowerChar_idem c)

theorem pyIsWordChar_iff (c : Char) :
    pyIsWordChar c = true ↔
      (65 ≤ c.toNat ∧ c.toNat ≤ 90) ∨ (97 ≤ c.toNat ∧ c.toNat ≤ 122) ∨
      (48 ≤ c.toNat ∧ c.toNat ≤ 57) ∨ c.toNat = 95 := by
  unfold pyIsWordChar pyIsAlpha pyIsUpper pyIsLower pyIsDigit
  simp [or_assoc]

theorem pyIsSpace_iff (c : Char) :
    pyIsSpace c = true ↔
      (c.toNat = 32 ∨ c.toNat = 9 ∨ c.toNat = 10 ∨ c.toNat = 11 ∨
       c.toNat = 12 ∨ c.toNat = 13 ∨ c.toNat = 28 ∨ c.toNat = 29 ∨
       c.toNat = 30 ∨ c.toNat = 31 ∨ c.toNat = 133 ∨ c.toNat = 160) := by
  unfold pyIsSpace
  simp [or_assoc]

/-- A word character is not whitespace. -/
theorem pyIsWordChar_not_space (c : Char) (h : pyIsWordChar c = true) :
    pyIsSpace c = false := by
  rw [Bool.eq_false_iff]
  intro hs
  have h1 := (pyIsWordChar_iff c).mp h
  have h2 := (pyIsSpace_iff c).mp hs
  omega

/-- Word characters are closed under lowering. -/
theorem pyIsWordChar_pyLowerChar (c : Char) (h : pyIsWordChar c = true) :
    pyIsWordChar (pyLowerChar c) = true := by
  rw [pyIsWordChar_iff] at h ⊢
  rw [pyLowerChar_toNat]
  rcases Decidable.em (65 ≤ c.toNat ∧ c.toNat ≤ 90) with hu | hu
  · rw [if_pos hu]; omega
  · rw [if_neg hu]; omega

theorem dropWhile_eq_self_of_all {p : Char → Bool} {l : List Char}
    (h : ∀ c ∈ l, p c = false) : l.dropWhile p = l := by
  cases l with
  | nil => rfl
  | cons c rest =>
    rw [List.dropWhile_cons, h c (by simp)]
    simp

/-- Stripping leaves a string with no whitespace characters unchanged. -/
theorem pyStripL_eq_self_of_no_space {l : List Char}
    (h : ∀ c ∈ l, pyIsSpace c = false) : pyStripL l = l := by
  unfold pyStripL
  rw [dropWhile_eq_self_of_all h,
      dropWhile_eq_self_of_all (fun c hc => h c (List.mem_reverse.mp hc)),
      List.reverse_reverse]

/-! ### Tokenisation helpers: `re.findall(r"[a-zA-Z0-9_]+", s)`, `re.sub(r"\s+", "_", s)` -/

/-- Flush a (reversed) accumulator of word characters as a completed word. -/
def pyWordsFlush (acc : List Char) (rest : List (List Char)) : List (List Char) :=
  if acc.isEmpty then rest else acc.reverse :: rest

/-- Worker for `pyWordsL`: `acc` holds the current run, reversed. -/
def pyWordsAux (acc : List Char) : List Char → List (List Char)
  | [] => pyWordsFlush acc []
  | c :: rest =>
    if pyIsWordChar c then pyWordsAux (c :: acc) rest
    else pyWordsFlush acc (pyWordsAux [] rest)

/-- Model of `re.findall(r"[a-zA-Z0-9_]+", s)`: the maximal runs of word characters. -/
def pyWordsL (l : List Char) : List (List Char) := pyWordsAux [] l

/-- Model of `re.findall(r"\b[a-zA-Z_][a-zA-Z0-9_]*\b", s)`.  A maximal run of word
characters matches exactly when its first character is a letter or underscore
(runs starting with a digit yield nothing: interior positions of a run are not
at a `\b` boundary and the first character fails `[a-zA-Z_]`). -/
def tokensL (l : List Char) : List (List Char) :=
  (pyWordsL l).filter (fun w =>
    match w with
    | [] => false
    | c :: _ => pyIsIdentStart c)

/-- Worker for `collapseWsL`; the flag records whether the previous character
was whitespace (i.e. we are inside a run already replaced by `_`). -/
def collapseWsAux : Bool → List Char → List Char
  | _, [] => []
  | inRun, c :: rest =>
    if pyIsSpace c then
      if inRun then collapseWsAux true rest
      else usc :: collapseWsAux true rest
    else c :: collapseWsAux false rest

/-- Model of `re.sub(r"\s+", "_", s)`: each maximal whitespace run becomes one `_`. -/
def collapseWsL (l : List Char) : List Char := collapseWsAux false l

/-! ### Substring machinery for the sanity filters -/

/-- Does `pat` occur as a prefix of some suffix scanned by `p`?  Generic
scanner: `p` is tested on every suffix of the input (including the empty one),
mirroring `re.search` trying every start position. -/
def scanSuffixes (p : List Char → Bool) : List Char → Bool
  | [] => p []
  | c :: rest => p (c :: rest) || scanSuffixes p rest

/-- Model of `pat in s` as plain substring containment (`re.search` on a literal). -/
def containsSubL (pat : List Char) (l : List Char) : Bool :=
  scanSuffixes (fun s => pat.isPrefixOf s) l

/-- Matcher, at the head of the input, for the regex `c1\s*OP\s*c2`
(e.g. `1\s*=\s*0`): first character, optional whitespace, the operator
characters, optional whitespace, second character. -/
def tautOpAt (c1 : Char) (op : List Char) (c2 : Char) : List Char → Bool
  | [] => false
  | c :: rest =>
    c = c1 &&
    (let r1 := rest.dropWhile pyIsSpace
     op.isPrefixOf r1 &&
     (let r2 := (r1.drop op.length).dropWhile pyIsSpace
      match r2 with
      | d :: _ => d = c2
      | [] => false))

/-- Matcher, at the head of the input, for `where\s+false`. -/
def whereFalseAt (l : List Char) : Bool :=
  ("where".toList).isPrefixOf l &&
  (let r := l.drop 5
   match r with
   | c :: _ => pyIsSpace c && ("false".toList).isPrefixOf (r.dropWhile pyIsSpace)
   | [] => false)

/-- Matcher at head for any of the four digit tautology patterns
`1\s*=\s*0`, `0\s*=\s*1`, `1\s*!=\s*1`, `1\s*<>\s*1`. -/
def digitTautAt (l : List Char) : Bool :=
  tautOpAt '1' ['='] '0' l || tautOpAt '0' ['='] '1' l ||
  tautOpAt '1' ['!', '='] '1' l || tautOpAt '1' ['<', '>'] '1' l

/-- Model of `re.search` of one of the four digit tautology patterns anywhere. -/
def digitTautSomewhere (l : List Char) : Bool := scanSuffixes digitTautAt l

/-- Lines 107–110 of `main.py`: some `always_false_patterns` entry matches
(the four digit patterns above plus `where\s+false`). -/
def anyAlwaysFalseL (l : List Char) : Bool :=
  scanSuffixes (fun s => digitTautAt s || whereFalseAt s) l

/-- Matcher at head for `select\s+'[^']*error[^']*'` (applied to the
already lower-cased SQL): `select`, at least one whitespace, an opening
single quote, then the text up to the next single quote must exist (a closing
quote) and contain `error`. -/
def selectErrAt (l : List Char) : Bool :=
  ("select".toList).isPrefixOf l &&
  (let r0 := l.drop 6
   match r0 with
   | c :: _ =>
     pyIsSpace c &&
     (let r1 := r0.dropWhile pyIsSpace
      match r1 with
      | q :: body =>
        q = sqc &&
        (let inner := body.takeWhile (fun d => !(d = sqc))
         !(body.drop inner.length).isEmpty && containsSubL ("error".toList) inner)
      | [] => false)
   | [] => false)

/-- Scanner for `p` on suffixes that stops crossing a newline (for a regex
`.` without `re.S`): `p` is tried at each position of the current line. -/
def scanNoNL (p : List Char → Bool) : List Char → Bool
  | [] => p []
  | c :: rest => p (c :: rest) || (!(c.toNat = 10) && scanNoNL p rest)

/-- Matcher at head for `column .* does not exist` (`.` does not cross
newlines). -/
def colNotExistAt (l : List Char) : Bool :=
  ("column ".toList).isPrefixOf l &&
  scanNoNL (fun s => ("does not exist".toList).isPrefixOf s) (l.drop 7)

/-- Line 115 of `main.py`: the "model self-reported an error" filter —
`select\s+'[^']*error[^']*'` or the substring `does not exist` or
`column .* does not exist` (the last is subsumed by the second but is
modelled faithfully). -/
def selfErrL (l : List Char) : Bool :=
  scanSuffixes selectErrAt l ||
  containsSubL ("does not exist".toList) l ||
  scanSuffixes colNotExistAt l

/-! ### String-literal stripping: lines 120–121 of `main.py`

`re.sub(r"'(?:[^']|'')*'", "''", sql)` and the analogous double-quote
substitution.  `litScan q l` matches the regex tail `(?:[^q]|qq)*q` against
`l` (the text after an opening quote), returning the remainder after the
closing quote of the leftmost-longest match, or `none` when the regex
backtracks out entirely (unterminated literal).  On a doubled quote the
greedy star first consumes both as an escaped-quote unit and, if the rest of
the match then fails at end of input, backtracks to use the first of the two
as the closing quote. -/
def litScan (q : Char) : List Char → Option (List Char)
  | [] => none
  | [c] => if c = q then some [] else none
  | c :: c2 :: rest2 =>
    if c = q then
      if c2 = q then
        match litScan q rest2 with
        | some r => some r
        | none => some (c2 :: rest2)
      else some (c2 :: rest2)
    else litScan q (c2 :: rest2)

theorem litScan_length_aux (q : Char) :
    ∀ (n : Nat) (l : List Char), l.length ≤ n →
      ∀ r, litScan q l = some r → r.length ≤ l.length := by
  intro n
  induction n with
  | zero =>
    intro l hl r h
    have : l = [] := List.eq_nil_of_length_eq_zero (Nat.le_zero.mp hl)
    subst this
    simp [litScan] at h
  | succ n ih =>
    intro l hl r h
    match l with
    | [] => simp [litScan] at h
    | [c] =>
      simp only [litScan] at h
      by_cases hc : c = q
      · rw [if_pos hc] at h
        cases h
        simp
      · rw [if_neg hc] at h
        cases h
    | c :: c2 :: rest2 =>
      simp only [litScan] at h
      by_cases hc : c = q
      · rw [if_pos hc] at h
        by_cases hc2 : c2 = q
        · rw [if_pos hc2] at h
          cases hm : litScan q rest2 with
          | some r2 =>
            rw [hm] at h
            have hr : r = r2 := (Option.some.inj h).symm
            subst hr
            have hlen : rest2.length ≤ n := by simp at hl; omega
            have := ih rest2 hlen r hm
            simp
            omega
          | none =>
            rw [hm] at h
            cases h
            simp
        · rw [if_neg hc2] at h
          cases h
          simp
      · rw [if_neg hc] at h
        have hlen : (c2 :: rest2).length ≤ n := by simp at hl ⊢; omega
        have := ih (c2 :: rest2) hlen r h
        simp at this ⊢
        omega

theorem litScan_length (q : Char) (l r : List Char) (h : litScan q l = some r) :
    r.length ≤ l.length :=
  litScan_length_aux q l.length l (Nat.le_refl _) r h

/-- Fuelled scanner for the whole substitution: at a quote, try to complete a
literal with `litScan`; on success emit an empty literal (`qq`) and continue
after it, otherwise (no match at this start position) emit the quote and
rescan from the next character.  Fuel ≥ length of the input suffices since
every step consumes at least one character. -/
def stripQAux (q : Char) : Nat → List Char → List Char
  | _, [] => []
  | 0, l => l
  | f + 1, c :: rest =>
    if c = q then
      match litScan q rest with
      | some r => q :: q :: stripQAux q f r
      | none => c :: stripQAux q f rest
    else c :: stripQAux q f rest

/-- Model of `re.sub(r"'(?:[^']|'')*'", "''", ·)` for quote character `q`. -/
def stripQL (q : Char) (l : List Char) : List Char := stripQAux q l.length l

/-- Lines 120–121: single-quoted literals are emptied first, then
double-quoted ones (on the already-processed text). -/
def stripLiteralsL (l : List Char) : List Char := stripQL dqc (stripQL sqc l)

/-! ### Backticked identifiers: `re.findall(r"`([^`]+)`", sql_no_strings)` -/

/-- Fuelled scanner: at a backtick, the regex needs a nonempty run of
non-backtick characters followed by a closing backtick; otherwise scanning
resumes at the next character (which may itself be the backtick opening the
next match). -/
def backticksAux : Nat → List Char → List (List Char)
  | _, [] => []
  | 0, _ => []
  | f + 1, c :: rest =>
    if c = btc then
      let inner := rest.takeWhile (fun d => !(d = btc))
      match rest.drop inner.length with
      | _ :: after2 =>
        if inner.isEmpty then backticksAux f rest
        else inner :: backticksAux f after2
      | [] => backticksAux f rest
    else backticksAux f rest

/-- All backtick-delimited identifiers, in order. -/
def backticksL (l : List Char) : List (List Char) := backticksAux l.length l

/-! ### Clause extraction: `_extract_clause` (lines 29–43 of `main.py`) -/

/-- Leftmost match of `(?i)KW\s+(.*)` with `re.S`: scan for the first
position where the keyword matches case-insensitively and is followed by at
least one whitespace character; the captured group is everything after the
(greedy, maximal) whitespace run. -/
def startClauseAux (kw : List Char) : List Char → Option (List Char)
  | [] => none
  | c :: rest =>
    if pyLowerL ((c :: rest).take kw.length) = kw then
      match (c :: rest).drop kw.length with
      | d :: after =>
        if pyIsSpace d then some ((d :: after).dropWhile pyIsSpace)
        else startClauseAux kw rest
      | [] => startClauseAux kw rest
    else startClauseAux kw rest

/-- Wordness of the character at index `i` (out of range counts as
non-word), used for `\b` boundaries. -/
def wordAtIdx (l : List Char) (i : Nat) : Bool :=
  match l[i]? with
  | some c => pyIsWordChar c
  | none => false

/-- Does `(?i)\bKW\b` match at index `i` of `s`?  A `\b` holds where the
wordness of the two adjacent characters differs (ends of string are
non-word), so the boundary condition depends on the wordness of the
keyword's first and last characters (e.g. the stop keyword `";"` needs word
characters on BOTH sides, which is why a trailing semicolon never terminates
a WHERE clause). -/
def stopMatchAt (s kw : List Char) (i : Nat) : Bool :=
  match kw with
  | [] => false
  | k0 :: kt =>
    pyLowerL ((s.drop i).take (k0 :: kt).length) = (k0 :: kt) &&
    ((if i = 0 then false else wordAtIdx s (i - 1)) != pyIsWordChar k0) &&
    (wordAtIdx s (i + (k0 :: kt).length) !=
      pyIsWordChar ((k0 :: kt).getLast (List.cons_ne_nil k0 kt)))

/-- Index of the earliest match of any stop keyword (the code takes the
minimum over per-keyword `re.search` results, which equals the first
position where any keyword matches). -/
def earliestStopIdx (s : List Char) (kws : List (List Char)) : Option Nat :=
  (List.range s.length).find? (fun i => kws.any (fun kw => stopMatchAt s kw i))

/-- Model of `_extract_clause(sql, start_kw, stop_kws)`: the text between the start
keyword and the earliest stop keyword (or end of string). -/
def _extract_clause (sql : List Char) (startKw : List Char)
    (stopKws : List (List Char)) : List Char :=
  match startClauseAux startKw sql with
  | none => []
  | some rest =>
    match earliestStopIdx rest stopKws with
    | none => rest
    | some i => rest.take i

/-! ### Alias removal in the SELECT clause (lines 129–131 of `main.py`) -/

/-- Length of the match of `(?i)\bas\s+[a-zA-Z_][a-zA-Z0-9_]*` at the head of
`l`, where `prevW` is the wordness of the character preceding `l` in the full
text (for the leading `\b`).  `none` when the pattern does not match here. -/
def asAliasLen (prevW : Bool) (l : List Char) : Option Nat :=
  if prevW then none
  else if pyLowerL (l.take 2) = ['a', 's'] then
    let r := l.drop 2
    let wsn := (r.takeWhile pyIsSpace).length
    if wsn = 0 then none
    else
      match r.drop wsn with
      | d :: _ =>
        if pyIsIdentStart d then
          some (2 + wsn + ((r.drop wsn).takeWhile pyIsWordChar).length)
        else none
      | [] => none
  else none

/-- Model of `re.sub(r"(?i)\bas\s+[a-zA-Z_][a-zA-Z0-9_]*", "", select_part)` as a
fuelled left-to-right scanner; after a match the scan resumes right after the
matched text (whose final character is a word character, hence `prevW`
becomes true). -/
def removeAsAux : Nat → Bool → List Char → List Char
  | _, _, [] => []
  | 0, _, l => l
  | f + 1, prevW, c :: rest =>
    match asAliasLen prevW (c :: rest) with
    | some k => removeAsAux f true ((c :: rest).drop k)
    | none => c :: removeAsAux f (pyIsWordChar c) rest

def removeAsL (l : List Char) : List Char := removeAsAux l.length false l

/-- Match of `\b[a-zA-Z_][a-zA-Z0-9_]*\s+[a-zA-Z_][a-zA-Z0-9_]*\b` at the
head of `l`: two identifiers separated by whitespace.  Returns the first
identifier (the replacement `m.group(0).split()[0]`) and the matched
length. -/
def pairAliasMatch (prevW : Bool) (l : List Char) : Option (List Char × Nat) :=
  if prevW then none
  else
    match l with
    | c :: _ =>
      if pyIsIdentStart c then
        let w1 := l.takeWhile pyIsWordChar
        let r := l.drop w1.length
        let wsn := (r.takeWhile pyIsSpace).length
        if wsn = 0 then none
        else
          match r.drop wsn with
          | d :: _ =>
            if pyIsIdentStart d then
              let w2 := (r.drop wsn).takeWhile pyIsWordChar
              some (w1, w1.length + wsn + w2.length)
            else none
          | [] => none
      else none
    | [] => none

/-- The second SELECT-clause substitution (line 131): each
`"<identifier> <identifier>"` pair collapses to its first identifier. -/
def collapsePairsAux : Nat → Bool → List Char → List Char
  | _, _, [] => []
  | 0, _, l => l
  | f + 1, prevW, c :: rest =>
    match pairAliasMatch prevW (c :: rest) with
    | some (w1, k) => w1 ++ collapsePairsAux f true ((c :: rest).drop k)
    | none => c :: collapsePairsAux f (pyIsWordChar c) rest

def collapsePairsL (l : List Char) : List Char := collapsePairsAux l.length false l

/-! ### Allowed-name index (lines 140–154 of `main.py`)

The Python sets `allowed_words` / `allowed_full` are modelled as the lists of
exactly the elements the two loops add; only membership is ever used. -/

def buildAllowed (cols : List (List Char)) (table : List Char) :
    List (List Char) × List (List Char) :=
  let tws := if table.isEmpty then [] else pyWordsL (pyLowerL table)
  (cols.flatMap (fun c => pyWordsL (pyLowerL c)) ++ tws,
   cols.map (fun c => collapseWsL (pyLowerL c)) ++ tws)

/-! ### `difflib.SequenceMatcher.ratio` (used by `_similar`, line 14)

`find_longest_match` (without junk, which needs strings of length ≥ 200)
returns the longest matching block, ties resolved to the earliest start in
`a`, then in `b`; this equals the lexicographically first `(i, j)` maximising
the longest common prefix of the suffixes, which the fold below computes in
scan order with a strict improvement test.  `ratio` is twice the total
matched size over the total length, via the standard recursive
decomposition. -/

/-- Longest common prefix length of two lists. -/
def lcpLen : List Char → List Char → Nat
  | a :: as2, b :: bs2 => if a = b then lcpLen as2 bs2 + 1 else 0
  | _, _ => 0

/-- Model of `find_longest_match` over whole strings: `(i, j, size)`. -/
def findLongestMatch (a b : List Char) : Nat × Nat × Nat :=
  (List.range a.length).foldl
    (fun best i =>
      (List.range b.length).foldl
        (fun best2 j =>
          let k := lcpLen (a.drop i) (b.drop j)
          if best2.2.2 < k then (i, j, k) else best2)
        best)
    (0, 0, 0)

/-- Total size of all matching blocks (`get_matching_blocks`), by the
recursive Ratcliff–Obershelp decomposition around the longest match.  Fuel
bounded by the total length suffices: each recursive call strictly shrinks
the combined length. -/
def matchTotalAux : Nat → List Char → List Char → Nat
  | 0, _, _ => 0
  | f + 1, a, b =>
    let t := findLongestMatch a b
    if t.2.2 = 0 then 0
    else
      matchTotalAux f (a.take t.1) (b.take t.2.1) + t.2.2 +
        matchTotalAux f (a.drop (t.1 + t.2.2)) (b.drop (t.2.1 + t.2.2))

def matchTotal (a b : List Char) : Nat :=
  matchTotalAux (a.length + b.length + 1) a b

/-- Model of `_similar(a, b) = difflib.SequenceMatcher(None, a, b).ratio()`, as an
exact rational (`1` when both strings are empty, as in
`difflib._calculate_ratio`). -/
def _similar (a b : List Char) : ℚ :=
  if a.length + b.length = 0 then 1
  else (2 * matchTotal a b : ℚ) / ((a.length + b.length : Nat) : ℚ)

/-! ### The fuzzy matcher `matches_allowed` (lines 157–176 of `main.py`) -/

/-- Model of `matches_allowed(ident)`: early-return chain translated to short-circuit
disjunction — numeric, member of `allowed_full`, member of `allowed_words`,
prefix either way against `allowed_words`, similarity ≥ 0.75 against
`allowed_words` then `allowed_full`. -/
def matches_allowed (allowed_words allowed_full : List (List Char))
    (ident : List Char) : Bool :=
  let n := pyStripL (pyLowerL ident)
  isNumericL n ||
  allowed_full.contains n ||
  allowed_words.contains n ||
  allowed_words.any (fun aw => aw.isPrefixOf n || n.isPrefixOf aw) ||
  allowed_words.any (fun aw => decide ((3 : ℚ) / 4 ≤ _similar n aw)) ||
  allowed_full.any (fun af => decide ((3 : ℚ) / 4 ≤ _similar n af))

/-! ### Candidate collection and the final verdict (lines 118–212) -/

/-- The fixed SQL keyword stoplist (lines 191–196). -/
def sqlKeywords : List (List Char) :=
  ["select", "from", "where", "and", "or", "order", "by", "group", "having",
   "limit", "offset", "asc", "desc", "join", "left", "right", "inner", "on",
   "as", "in", "is", "null", "not", "between", "like", "distinct", "count",
   "sum", "avg", "min", "max", "case", "when", "then", "else"].map String.toList

/-- Candidate identifiers computed from the literal-stripped text: backticked
names (normalised full form plus component words) and the lower-cased tokens
of the alias-cleaned SELECT clause and of the WHERE clause.  The Python
`candidates` set is modelled as the list of added elements. -/
def candidatesFromStripped (sns : List Char) : List (List Char) :=
  let bts := backticksL sns
  let selPart := _extract_clause sns ("select".toList) [("from".toList)]
  let selClean := collapsePairsL (removeAsL selPart)
  let wherePart :=
    _extract_clause sns ("where".toList)
      [("group".toList), ("order".toList), ("limit".toList), (";".toList)]
  bts.flatMap (fun b2 => collapseWsL (pyLowerL b2) :: pyWordsL (pyLowerL b2)) ++
    (tokensL selClean ++ tokensL wherePart).map pyLowerL

/-- Candidates of a raw SQL text (literals are stripped first, line 120). -/
def candidatesOf (sql : List Char) : List (List Char) :=
  candidatesFromStripped (stripLiteralsL sql)

/-- The per-candidate filter of the final loop (lines 199–203): nonempty,
not a keyword, longer than one character. -/
def survives (c : List Char) : Bool :=
  !c.isEmpty && !(sqlKeywords.contains c) && decide (1 < c.length)

/-- Check that `unknowns` is nonempty (lines 198–207). -/
def hasUnknown (aw af : List (List Char)) (cands : List (List Char)) : Bool :=
  cands.any (fun c => survives c && !matches_allowed aw af c)

/-- The validation outcome (§3 ValidationOutcome / §6 outbound shape). -/
inductive Result where
  | success (sql : String)
  | error (message : String)
deriving DecidableEq, Repr

/-- Lines 100–212 of `main.py`: everything after the `sql` field has been
extracted from the model's JSON — strip, empty check, tautology filter,
self-reported-error filter, literal stripping + extraction + fuzzy matching,
final verdict. -/
def processSqlL (sql0 : List Char) (cols : List (List Char)) (table : List Char) :
    Result :=
  let sql := pyStripL sql0
  if sql.isEmpty then Result.error "Model returned empty SQL"
  else
    let sl := pyLowerL sql
    if anyAlwaysFalseL sl then
      Result.error "Query cannot be created from the given input"
    else if selfErrL sl then
      Result.error "Invalid column used in query"
    else
      let a := buildAllowed cols table
      if hasUnknown a.1 a.2 (candidatesOf sql) then
        Result.error "Invalid column used in query"
      else Result.success (String.mk sql)

/-- String-level wrapper for `processSqlL`. -/
def processSql (sql : String) (cols : List String) (table : String) : Result :=
  processSqlL sql.toList (cols.map String.toList) table.toList

/-! ### JSON parsing: model of `json.loads` (line 88 / 93 of `main.py`)

Executable recursive-descent parser following CPython's `json` decoder:
JSON whitespace is ` \t\n\r`; strings are strict (raw control characters
rejected) with the eight standard escapes and `\uXXXX` (surrogate pairs
combined; a lone surrogate, which CPython would keep, is not representable
as a Lean `Char` and is treated as a parse failure — no such input occurs in
this development); numbers follow `(-?(?:0|[1-9]\d+?))(\.\d+)?([eE][-+]?\d+)?`
and are kept as their lexeme (the numeric value is never inspected
downstream); `NaN`, `Infinity` and `-Infinity` are accepted; duplicate
object keys keep the last binding; trailing non-whitespace is an error. -/

inductive JVal where
  | jnull
  | jbool (b : Bool)
  | jnum (raw : String)
  | jstr (s : String)
  | jarr (elems : List JVal)
  | jobj (fields : List (String × JVal))

/-- JSON whitespace (`json.decoder.WHITESPACE_STR`). -/
def jsonWs (c : Char) : Bool :=
  c.toNat = 32 || c.toNat = 9 || c.toNat = 10 || c.toNat = 13

/-- Backslash character. -/
def bsc : Char := Char.ofNat 92

def hexVal (c : Char) : Option Nat :=
  if 48 ≤ c.toNat ∧ c.toNat ≤ 57 then some (c.toNat - 48)
  else if 97 ≤ c.toNat ∧ c.toNat ≤ 102 then some (c.toNat - 87)
  else if 65 ≤ c.toNat ∧ c.toNat ≤ 70 then some (c.toNat - 55)
  else none

def parseU4 : List Char → Option (Nat × List Char)
  | a :: b :: c :: d :: rest =>
    match hexVal a, hexVal b, hexVal c, hexVal d with
    | some va, some vb, some vc, some vd =>
      some (va * 4096 + vb * 256 + vc * 16 + vd, rest)
    | _, _, _, _ => none
  | _ => none

/-- Decode one escape sequence (the text after a backslash). -/
def parseEscape (l : List Char) : Option (Char × List Char) :=
  match l with
  | [] => none
  | c :: rest =>
    if c = dqc then some (dqc, rest)
    else if c = bsc then some (bsc, rest)
    else if c = '/' then some ('/', rest)
    else if c = 'b' then some (Char.ofNat 8, rest)
    else if c = 'f' then some (Char.ofNat 12, rest)
    else if c = 'n' then some (Char.ofNat 10, rest)
    else if c = 'r' then some (Char.ofNat 13, rest)
    else if c = 't' then some (Char.ofNat 9, rest)
    else if c = 'u' then
      match parseU4 rest with
      | some (v, rest2) =>
        if 55296 ≤ v ∧ v ≤ 56319 then
          match rest2 with
          | e1 :: e2 :: rest3 =>
            if e1 = bsc ∧ e2 = 'u' then
              match parseU4 rest3 with
              | some (v2, rest4) =>
                if 56320 ≤ v2 ∧ v2 ≤ 57343 then
                  some (Char.ofNat (65536 + (v - 55296) * 1024 + (v2 - 56320)), rest4)
                else none
              | none => none
            else none
          | _ => none
        else if 56320 ≤ v ∧ v ≤ 57343 then none
        else some (Char.ofNat v, rest2)
      | none => none
    else none

/-- String body parser (after the opening quote); strict mode. -/
def parseJStringAux : Nat → List Char → List Char → Option (String × List Char)
  | 0, _, _ => none
  | f + 1, acc, l =>
    match l with
    | [] => none
    | c :: rest =>
      if c = dqc then some (String.mk acc.reverse, rest)
      else if c = bsc then
        match parseEscape rest with
        | some (ch, rest2) => parseJStringAux f (ch :: acc) rest2
        | none => none
      else if c.toNat < 32 then none
      else parseJStringAux f (c :: acc) rest

def parseJString (l : List Char) : Option (String × List Char) :=
  parseJStringAux (l.length + 1) [] l

/-- Model of `NUMBER_RE` from `json.scanner`; returns the lexeme and the rest. -/
def parseJNumber (l : List Char) : Option (List Char × List Char) :=
  let step1 : Option (List Char × List Char) :=
    match l with
    | c :: rest =>
      if c = '-' then
        match rest with
        | d :: rest2 =>
          if d = '0' then some ([c, d], rest2)
          else if pyIsDigit d then
            some (c :: d :: rest2.takeWhile pyIsDigit, rest2.dropWhile pyIsDigit)
          else none
        | [] => none
      else if c = '0' then some ([c], rest)
      else if pyIsDigit c then
        some (c :: rest.takeWhile pyIsDigit, rest.dropWhile pyIsDigit)
      else none
    | [] => none
  match step1 with
  | none => none
  | some (intPart, r1) =>
    let fracRes : List Char × List Char :=
      match r1 with
      | p :: r2 =>
        if p = '.' ∧ !(r2.takeWhile pyIsDigit).isEmpty then
          (p :: r2.takeWhile pyIsDigit, r2.dropWhile pyIsDigit)
        else ([], r1)
      | [] => ([], r1)
    let r3 := fracRes.2
    let expRes : List Char × List Char :=
      match r3 with
      | e :: r4 =>
        if e = 'e' ∨ e = 'E' then
          match r4 with
          | s :: r5 =>
            if (s = '+' ∨ s = '-') ∧ !(r5.takeWhile pyIsDigit).isEmpty then
              (e :: s :: r5.takeWhile pyIsDigit, r5.dropWhile pyIsDigit)
            else if pyIsDigit s then
              (e :: s :: r5.takeWhile pyIsDigit, r5.dropWhile pyIsDigit)
            else ([], r3)
          | [] => ([], r3)
        else ([], r3)
      | [] => ([], r3)
    some (intPart ++ fracRes.1 ++ expRes.1, expRes.2)

mutual

/-- Model of `_scan_once`: parse one JSON value at the head of `l` (no leading
whitespace). -/
def parseJValueAux : Nat → List Char → Option (JVal × List Char)
  | 0, _ => none
  | f + 1, l =>
    match l with
    | [] => none
    | c :: rest =>
      if c = dqc then
        match parseJString rest with
        | some (s, r) => some (JVal.jstr s, r)
        | none => none
      else if c.toNat = 123 then parseObjStart f (rest.dropWhile jsonWs)
      else if c.toNat = 91 then parseArrStart f (rest.dropWhile jsonWs)
      else if ("null".toList).isPrefixOf l then some (JVal.jnull, l.drop 4)
      else if ("true".toList).isPrefixOf l then some (JVal.jbool true, l.drop 4)
      else if ("false".toList).isPrefixOf l then some (JVal.jbool false, l.drop 5)
      else
        match parseJNumber l with
        | some (raw, r) => some (JVal.jnum (String.mk raw), r)
        | none =>
          if ("NaN".toList).isPrefixOf l then some (JVal.jnum "NaN", l.drop 3)
          else if ("Infinity".toList).isPrefixOf l then
            some (JVal.jnum "Infinity", l.drop 8)
          else if ("-Infinity".toList).isPrefixOf l then
            some (JVal.jnum "-Infinity", l.drop 9)
          else none

/-- After `{` and whitespace: `}` or the first key. -/
def parseObjStart : Nat → List Char → Option (JVal × List Char)
  | 0, _ => none
  | f + 1, l =>
    match l with
    | c :: rest =>
      if c.toNat = 125 then some (JVal.jobj [], rest)
      else if c = dqc then parseObjKey f [] (c :: rest)
      else none
    | [] => none

/-- At a `"` starting a key: parse `"key"`, whitespace, `:`, whitespace,
value, then delegate to `parseObjRest`. -/
def parseObjKey : Nat → List (String × JVal) → List Char →
    Option (JVal × List Char)
  | 0, _, _ => none
  | f + 1, fields, l =>
    match l with
    | c :: rest =>
      if c = dqc then
        match parseJString rest with
        | some (k, r1) =>
          match r1.dropWhile jsonWs with
          | d :: r2 =>
            if d.toNat = 58 then
              match parseJValueAux f (r2.dropWhile jsonWs) with
              | some (v, r3) => parseObjRest f (fields ++ [(k, v)]) (r3.dropWhile jsonWs)
              | none => none
            else none
          | [] => none
        | none => none
      else none
    | [] => none

/-- After a completed `key: value`: `}` or `,` and the next key. -/
def parseObjRest : Nat → List (String × JVal) → List Char →
    Option (JVal × List Char)
  | 0, _, _ => none
  | f + 1, fields, l =>
    match l with
    | c :: rest =>
      if c.toNat = 125 then some (JVal.jobj fields, rest)
      else if c.toNat = 44 then parseObjKey f fields (rest.dropWhile jsonWs)
      else none
    | [] => none

/-- After `[` and whitespace: `]` or the first element. -/
def parseArrStart : Nat → List Char → Option (JVal × List Char)
  | 0, _ => none
  | f + 1, l =>
    match l with
    | c :: rest =>
      if c.toNat = 93 then some (JVal.jarr [], rest)
      else
        match parseJValueAux f l with
        | some (v, r) => parseArrRest f [v] (r.dropWhile jsonWs)
        | none => none
    | [] => none

/-- After a completed element: `]` or `,` and the next element. -/
def parseArrRest : Nat → List JVal → List Char → Option (JVal × List Char)
  | 0, _, _ => none
  | f + 1, elems, l =>
    match l with
    | c :: rest =>
      if c.toNat = 93 then some (JVal.jarr elems, rest)
      else if c.toNat = 44 then
        match parseJValueAux f (rest.dropWhile jsonWs) with
        | some (v, r) => parseArrRest f (elems ++ [v]) (r.dropWhile jsonWs)
        | none => none
      else none
    | [] => none

end

/-- Model of `json.loads`: leading/trailing JSON whitespace allowed, nothing else.
The fuel `2·length + 2` dominates the parser's call depth (at least one
character is consumed every two nested calls). -/
def pyJsonLoadsL (l : List Char) : Option JVal :=
  let l1 := l.dropWhile jsonWs
  match parseJValueAux (2 * l1.length + 2) l1 with
  | some (v, rest) => if (rest.dropWhile jsonWs).isEmpty then some v else none
  | none => none

/-! ### Recovery, schema validation and the orchestrator (lines 46–215) -/

/-- Model of `re.search(r"(\{.*\})", json_text, re.S)`: with a greedy dot-matches-all
`.*`, the leftmost match runs from the first `{` to the last `}` (and exists
iff some `}` occurs strictly after the first `{`). -/
def braceSubL (l : List Char) : Option (List Char) :=
  match l.findIdx? (fun c => c.toNat = 123) with
  | none => none
  | some i =>
    match (l.reverse.findIdx? (fun c => c.toNat = 125)) with
    | none => none
    | some rj =>
      let j := l.length - 1 - rj
      if i < j then some ((l.drop i).take (j - i + 1)) else none

/-- Last binding for a key (`dict` built from JSON pairs keeps the last
occurrence). -/
def lookupLast (k : String) (fields : List (String × JVal)) : Option JVal :=
  (fields.filter (fun f2 => f2.1 = k)).getLast?.map (fun f2 => f2.2)

/-- Model of `SQLResult.model_validate(json_obj)` succeeds iff the parsed JSON is an
object whose `sql` member is a string (pydantic v2 lax mode: JSON values
other than strings are not coerced to `str`; extra keys are ignored). -/
def sqlResultValid (v : JVal) : Bool :=
  match v with
  | JVal.jobj fs =>
    match lookupLast "sql" fs with
    | some (JVal.jstr _) => true
    | _ => false
  | _ => false

/-- Model of `(json_obj.get("sql") or "")`: the `sql` member if it is a string
(guaranteed by prior validation), else `""`. -/
def getSqlField (v : JVal) : String :=
  match v with
  | JVal.jobj fs =>
    match lookupLast "sql" fs with
    | some (JVal.jstr s) => s
    | _ => ""
  | _ => ""

/-- Continuation after a successfully parsed JSON object (lines 95–212):
schema validation, then the SQL validation pipeline. -/
def postParse (obj : JVal) (cols : List (List Char)) (table : List Char) : Result :=
  if sqlResultValid obj then processSqlL ((getSqlField obj).toList) cols table
  else Result.error "Invalid SQL structure from model"

/-- Lines 86–212, as a fallible computation: `Except.error ()` models a
Python exception escaping this region to the outer `except` handler.  The
only raise not locally handled is `json.loads(m.group(1))` on line 93: it
sits inside the `except json.JSONDecodeError` block, so a failure there is
NOT caught by the inner handler. -/
def handleText (txt : List Char) (cols : List (List Char)) (table : List Char) :
    Except Unit Result :=
  let jt := pyStripL txt
  match pyJsonLoadsL jt with
  | some obj => Except.ok (postParse obj cols table)
  | none =>
    match braceSubL jt with
    | none => Except.ok (Result.error "Invalid JSON from model")
    | some sub =>
      match pyJsonLoadsL sub with
      | none => Except.error ()
      | some obj => Except.ok (postParse obj cols table)

/-- The whole post-model-call region as seen from inside `ai_sql`'s
`try`/`except Exception`: an escaped exception becomes the generic error. -/
def afterModelL (optText : Option (List Char)) (cols : List (List Char))
    (table : List Char) : Result :=
  match handleText (optText.getD []) cols table with
  | Except.error _ => Result.error "Internal processing error"
  | Except.ok r => r

/-! ### The inbound request and `ai_sql` itself -/

/-- A Python value as far as `_normalize_columns` cares: a string or
anything else (a non-string value can reach `columns_list` via
`item["name"]`). -/
inductive PyVal where
  | pstr (s : String)
  | pother
deriving DecidableEq

/-- One entry of `columns_list`: a plain string, a dict with a `name` key
(of arbitrary value type), a dict without one, or any other value. -/
inductive ColItem where
  | strItem (s : String)
  | dictWithName (v : PyVal)
  | dictNoName
  | otherItem
deriving DecidableEq

/-- The request body (§6 inbound shape).  `none` models an absent key
(`body.get` default); a `columns_list` value that is not a list is
normalised to the same result as an absent one (`isinstance` check on
line 20). -/
structure Body where
  table_name : Option String := none
  columns_list : Option (List ColItem) := none
  query : Option String := none
deriving DecidableEq

/-- Model of `_normalize_columns` (lines 18–26): keep strings verbatim and `name`
members of dicts (whatever their type); skip everything else. -/
def _normalize_columns (raw : Option (List ColItem)) : List PyVal :=
  match raw with
  | none => []
  | some items =>
    items.foldr
      (fun it acc =>
        match it with
        | ColItem.strItem s => PyVal.pstr s :: acc
        | ColItem.dictWithName v => v :: acc
        | _ => acc)
      []

/-- Model of `", ".join(columns_list)` (line 59): raises `TypeError` when any element
is not a string.  This runs OUTSIDE the `try` block. -/
def joinComma : List PyVal → Option String
  | [] => some ""
  | [PyVal.pstr s] => some s
  | PyVal.pstr s :: v :: rest =>
    (joinComma (v :: rest)).map (fun t => s ++ ", " ++ t)
  | PyVal.pother :: _ => none

/-- The string values of the normalised columns (equal to the whole list
whenever `joinComma` succeeded). -/
def colStrings (vals : List PyVal) : List (List Char) :=
  vals.filterMap (fun v =>
    match v with
    | PyVal.pstr s => some s.toList
    | PyVal.pother => none)

/-- Environment of one `ai_sql` call: the request body plus the behaviour of
the external `genai` model call (line 77): either it raises, or it returns a
response whose `.text` may be `None`.  Client construction (line 47) and the
prompt f-string are modelled as non-raising; the prompt's content only flows
into the external call and does not affect validation. -/
structure Env where
  body : Body
  modelResult : Except Unit (Option (List Char))

/-- Model of `ai_sql(body)` (lines 46–215).  The result is `Except.error ()` exactly
when an exception escapes `ai_sql` to its caller: the guarded region (model
call and everything after it) converts its exceptions to
`Result.error "Internal processing error"`, but the prompt-assembly join on
line 59 runs before `try` and can raise `TypeError`. -/
def ai_sql (env : Env) : Except Unit Result :=
  let table := (env.body.table_name).getD ""
  let colVals := _normalize_columns env.body.columns_list
  match joinComma colVals with
  | none => Except.error ()
  | some _ =>
    Except.ok
      (match env.modelResult with
       | Except.error _ => Result.error "Internal processing error"
       | Except.ok t => afterModelL t (colStrings colVals) table.toList)

/-! ### Reads-only state threading (for the frame property)

Every access `ai_sql` makes to the request value is one of the three
`body.get` reads below (plus `_normalize_columns`, which reads list items
and dict members without writing); the source contains no assignment,
`update`, `append` or `del` on `body` or its entries.  The state-threaded
variant makes each read explicit and returns the request value it finished
with. -/

def getTableSt (b : Body) : Option String × Body := (b.table_name, b)

def getColsSt (b : Body) : Option (List ColItem) × Body := (b.columns_list, b)

def getQuerySt (b : Body) : Option String × Body := (b.query, b)

/-- Model of `ai_sql`, with the request value threaded through every read. -/
def ai_sql_st (env : Env) : Except Unit Result × Body :=
  let tb := getTableSt env.body
  let cb := getColsSt tb.2
  let qb := getQuerySt cb.2
  let table := tb.1.getD ""
  let colVals := _normalize_columns cb.1
  (match joinComma colVals with
   | none => Except.error ()
   | some _ =>
     Except.ok
       (match env.modelResult with
        | Except.error _ => Result.error "Internal processing error"
        | Except.ok t => afterModelL t (colStrings colVals) table.toList),
   qb.2)

/-! ## Helper lemmas -/

theorem scanSuffixes_or (p q : List Char → Bool) (l : List Char) :
    scanSuffixes (fun s => p s || q s) l = (scanSuffixes p l || scanSuffixes q l) := by
  induction l with
  | nil => rfl
  | cons c rest ih =>
    simp only [scanSuffixes, ih]
    cases p (c :: rest) <;> cases q (c :: rest) <;> simp

/-- A digit tautology match somewhere implies the always-false filter fires. -/
theorem anyAlwaysFalse_of_digitTaut (l : List Char)
    (h : digitTautSomewhere l = true) : anyAlwaysFalseL l = true := by
  unfold anyAlwaysFalseL
  rw [scanSuffixes_or]
  unfold digitTautSomewhere at h
  rw [h]
  rfl

/-- Shared helper: any SQL whose lower-cased stripped text matches one of
the five always-false patterns is rejected with the tautology message,
whatever the columns and table are. -/
theorem processSqlL_taut_reject (sql : List Char) (cols : List (List Char))
    (table : List Char)
    (h : anyAlwaysFalseL (pyLowerL (pyStripL sql)) = true) :
    processSqlL sql cols table =
      Result.error "Query cannot be created from the given input" := by
  have hne : (pyStripL sql).isEmpty = false := by
    cases hs : (pyStripL sql).isEmpty
    · rfl
    · have h0 : pyStripL sql = [] := by simpa using hs
      rw [h0] at h
      exact absurd h (by decide)
  unfold processSqlL
  simp [hne, h]

/-! ## Claims C2, C9, C8, C10 -/

/-- C2: for every generated SQL whose lower-cased text matches one of the
always-false tautology patterns `1=0`, `0=1`, `where false`, `1!=1`, `1<>1`
(whitespace-tolerant), the orchestrator's validation returns the error
"Query cannot be created from the given input", for every columns list and
table name — in particular even when every identifier in the SQL is a valid
column; the identifier extraction and matching stages are never consulted. -/
theorem C2_tautology_rejection (sql : List Char) (cols : List (List Char))
    (table : List Char)
    (h : anyAlwaysFalseL (pyLowerL (pyStripL sql)) = true) :
    processSqlL sql cols table =
      Result.error "Query cannot be created from the given input" :=
  processSqlL_taut_reject sql cols table h

/-- Witness for C2 at a concrete input: `WHERE 1 = 0` with a valid column. -/
theorem C2_tautology_rejection_witness :
    anyAlwaysFalseL (pyLowerL (pyStripL ("SELECT name FROM t WHERE 1 = 0".toList))) = true ∧
    processSqlL ("SELECT name FROM t WHERE 1 = 0".toList) [("name".toList)] ("t".toList) =
      Result.error "Query cannot be created from the given input" :=
  ⟨by decide,
   C2_tautology_rejection ("SELECT name FROM t WHERE 1 = 0".toList)
     [("name".toList)] ("t".toList) (by decide)⟩

/-- C9: the always-false filter is substring-based with no word-boundary
anchoring: any SQL whose lower-cased text contains one of the digit
patterns `1=0`, `0=1`, `1!=1`, `1<>1` (optional whitespace around the
operator) anywhere — also as the tail of a longer identifier or inside a
string literal — is rejected with "Query cannot be created from the given
input" regardless of the columns and table (so even when every identifier
is an allowed column). -/
theorem C9_substring_tautology (sql : List Char) (cols : List (List Char))
    (table : List Char)
    (h : digitTautSomewhere (pyLowerL (pyStripL sql)) = true) :
    processSqlL sql cols table =
      Result.error "Query cannot be created from the given input" :=
  processSqlL_taut_reject sql cols table
    (anyAlwaysFalse_of_digitTaut _ h)

/-- Witness for C9: `WHERE col1 = 0` — the digit pattern is the tail of the
allowed identifier `col1` followed by `= 0`, and the query is rejected even
though `col1` and `num` are valid columns. -/
theorem C9_substring_tautology_witness :
    digitTautSomewhere (pyLowerL (pyStripL ("select num from t where col1 = 0".toList))) = true ∧
    processSqlL ("select num from t where col1 = 0".toList)
        [("num".toList), ("col1".toList)] ("t".toList) =
      Result.error "Query cannot be created from the given input" :=
  ⟨by decide,
   C9_substring_tautology ("select num from t where col1 = 0".toList)
     [("num".toList), ("col1".toList)] ("t".toList) (by decide)⟩

/-- Two sequential runs of the validation pipeline on the same inputs, as
the spec's idempotence scenario describes. -/
def runValidationTwice (sql : List Char) (cols : List (List Char))
    (table : List Char) : Result × Result :=
  (processSqlL sql cols table, processSqlL sql cols table)

/-- C8: the validation pipeline is deterministic and stateless — running it
twice on the same GeneratedSQL, ColumnsList and TableName yields the same
outcome both times.  In this embedding the pipeline is a pure function of
exactly these three inputs (the Python function touches no state outside
its local variables; the allowed-name sets are rebuilt from the arguments
on every call), so the two runs coincide definitionally. -/
theorem C8_validation_deterministic (sql : List Char) (cols : List (List Char))
    (table : List Char) :
    (runValidationTwice sql cols table).1 = (runValidationTwice sql cols table).2 :=
  rfl

/-- C10: `ai_sql` never mutates its argument: the state-threaded embedding,
in which every access to the request value is an explicit read
(`table_name`, `columns_list`, `query`, and `_normalize_columns` reading
the entries), returns the request value unchanged and computes the same
result as `ai_sql`, for every environment. -/
theorem C10_body_not_mutated (env : Env) :
    (ai_sql_st env).2 = env.body ∧ (ai_sql_st env).1 = ai_sql env :=
  ⟨rfl, rfl⟩

/-! ## Claim C5 (corrected) -/

/-- Are all normalised column values strings (so that the `", ".join` on
line 59 cannot raise)? -/
def allStrColsB (b : Body) : Bool :=
  (_normalize_columns b.columns_list).all
    (fun v => match v with | PyVal.pstr _ => true | PyVal.pother => false)

theorem joinComma_isSome (vals : List PyVal)
    (h : vals.all
        (fun v => match v with | PyVal.pstr _ => true | PyVal.pother => false) = true) :
    (joinComma vals).isSome = true := by
  induction vals with
  | nil => rfl
  | cons v rest ih =>
    match v with
    | PyVal.pother => simp at h
    | PyVal.pstr s =>
      match rest with
      | [] => rfl
      | w :: r2 =>
        have h2 : (w :: r2).all
            (fun v => match v with | PyVal.pstr _ => true | PyVal.pother => false) = true := by
          simp only [List.all_cons, Bool.and_eq_true] at h
          simp only [List.all_cons, Bool.and_eq_true]
          exact h.2
        have := ih h2
        obtain ⟨t, ht⟩ := Option.isSome_iff_exists.mp this
        simp [joinComma, ht]

/-- A request whose `columns_list` is `[{"name": 123}]` — a dict body, yet
`", ".join(columns_list)` on line 59 raises `TypeError` before the `try`
block starts. -/
def envBadCols : Env :=
  { body := { columns_list := some [ColItem.dictWithName PyVal.pother] },
    modelResult := Except.ok (some []) }

/-- C5 counterexample: on the body `{"columns_list": [{"name": 123}]}` the
call `ai_sql(body)` raises (`Except.error ()` marks an exception escaping
to the caller), refuting "for every input body, ai_sql never lets an
exception propagate to its caller". -/
theorem C5_escape_counterexample : ai_sql envBadCols = Except.error () := rfl

/-- C5 (amended): exceptions raised during the model call or the downstream
processing are caught and yield `Error "Internal processing error"`, and
`ai_sql` returns a structured result for every body whose normalised column
names are all strings; but the prompt-assembly code before the `try` block
(the `", ".join` of the column names, line 59) is unguarded, so a body with
a non-string `name` makes `ai_sql` raise to its caller. -/
theorem C5_boundary_amended (env : Env) (h : allStrColsB env.body = true) :
    (∃ r, ai_sql env = Except.ok r) ∧
    (∀ e, env.modelResult = Except.error e →
      ai_sql env = Except.ok (Result.error "Internal processing error")) := by
  have hj := joinComma_isSome _ h
  obtain ⟨s, hs⟩ := Option.isSome_iff_exists.mp hj
  have hmain : ai_sql env = Except.ok
      (match env.modelResult with
       | Except.error _ => Result.error "Internal processing error"
       | Except.ok t =>
         afterModelL t (colStrings (_normalize_columns env.body.columns_list))
           ((env.body.table_name.getD "").toList)) := by
    unfold ai_sql
    simp only [hs]
  constructor
  · exact ⟨_, hmain⟩
  · intro e he
    rw [hmain, he]

/-- Witness environment for the amended C5: well-formed string columns and
a model call that raises. -/
def envModelRaises : Env :=
  { body := { table_name := some "t",
              columns_list := some [ColItem.strItem "Roll_No",
                                    ColItem.dictWithName (PyVal.pstr "num")] },
    modelResult := Except.error () }

/-- Witness for the amended C5: the model-call exception is converted to the
generic internal error, nothing escapes. -/
theorem C5_boundary_amended_witness :
    allStrColsB envModelRaises.body = true ∧
    ai_sql envModelRaises = Except.ok (Result.error "Internal processing error") :=
  ⟨by decide, (C5_boundary_amended envModelRaises (by decide)).2 () rfl⟩

/-! ## Claim C6 (corrected) -/

/-- C6 counterexample: on model output `xx{yy}zz`, direct parsing fails, the
brace recovery finds the substring `{yy}`, and parsing that substring fails
too — but the raise on line 93 is outside the inner handler, so the result
is "Internal processing error", not "Invalid JSON from model" as claimed. -/
theorem C6_recovery_counterexample :
    (pyJsonLoadsL (pyStripL ("xx\x7byy\x7dzz".toList))).isNone = true ∧
    braceSubL (pyStripL ("xx\x7byy\x7dzz".toList)) = some ("\x7byy\x7d".toList) ∧
    (pyJsonLoadsL ("\x7byy\x7d".toList)).isNone = true ∧
    afterModelL (some ("xx\x7byy\x7dzz".toList)) [] [] =
      Result.error "Internal processing error" :=
  ⟨by decide, by decide, by decide, by decide⟩

/-- C6 (amended): model output is parsed directly as JSON; when that fails,
recovery searches for the first-`{`-to-last-`}` substring: when no such
substring exists the result is `Error "Invalid JSON from model"`, when the
substring exists but does not parse the `JSONDecodeError` raised on line 93
escapes the inner handler and the catch-all yields
`Error "Internal processing error"`, and when it parses the pipeline
continues with the recovered object. -/
theorem C6_recovery_amended (txt : List Char) (cols : List (List Char))
    (table : List Char)
    (hd : (pyJsonLoadsL (pyStripL txt)).isNone = true) :
    (braceSubL (pyStripL txt) = none →
      afterModelL (some txt) cols table = Result.error "Invalid JSON from model") ∧
    (∀ sub, braceSubL (pyStripL txt) = some sub → (pyJsonLoadsL sub).isNone = true →
      afterModelL (some txt) cols table = Result.error "Internal processing error") ∧
    (∀ sub obj, braceSubL (pyStripL txt) = some sub → pyJsonLoadsL sub = some obj →
      afterModelL (some txt) cols table = postParse obj cols table) := by
  have hd' : pyJsonLoadsL (pyStripL txt) = none := by
    cases hx : pyJsonLoadsL (pyStripL txt)
    · rfl
    · rw [hx] at hd; simp at hd
  refine ⟨?_, ?_, ?_⟩
  · intro hb
    unfold afterModelL handleText
    simp [hd', hb]
  · intro sub hb hsub
    have hsub' : pyJsonLoadsL sub = none := by
      cases hx : pyJsonLoadsL sub
      · rfl
      · rw [hx] at hsub; simp at hsub
    unfold afterModelL handleText
    simp [hd', hb, hsub']
  · intro sub obj hb hobj
    unfold afterModelL handleText
    simp [hd', hb, hobj]

/-- Witness for the amended C6: output with no braces at all takes the
"Invalid JSON from model" branch. -/
theorem C6_recovery_amended_witness :
    (pyJsonLoadsL (pyStripL ("not json".toList))).isNone = true ∧
    braceSubL (pyStripL ("not json".toList)) = none ∧
    afterModelL (some ("not json".toList)) [] [] =
      Result.error "Invalid JSON from model" :=
  ⟨by decide, by decide,
   (C6_recovery_amended ("not json".toList) [] [] (by decide)).1 (by decide)⟩

/-! ## Well-formedness of extracted candidates -/

theorem map_eq_self_of {α : Type} (f : α → α) (l : List α)
    (h : ∀ x ∈ l, f x = x) : l.map f = l := by
  induction l with
  | nil => rfl
  | cons x rest ih =>
    rw [List.map_cons, h x (by simp), ih (fun y hy => h y (by simp [hy]))]

theorem mem_pyWordsFlush (acc : List Char) (rest : List (List Char))
    (w : List Char) (h : w ∈ pyWordsFlush acc rest) :
    (acc ≠ [] ∧ w = acc.reverse) ∨ w ∈ rest := by
  unfold pyWordsFlush at h
  by_cases he : acc.isEmpty = true
  · rw [if_pos he] at h
    exact Or.inr h
  · rw [if_neg he] at h
    rcases List.mem_cons.mp h with h1 | h1
    · exact Or.inl ⟨by simpa using he, h1⟩
    · exact Or.inr h1

/-- Every word produced by `pyWordsAux` is nonempty and consists of word
characters drawn from the accumulator or the input. -/
theorem pyWordsAux_chars (l : List Char) :
    ∀ acc : List Char, (∀ c ∈ acc, pyIsWordChar c = true) →
      ∀ w ∈ pyWordsAux acc l,
        w ≠ [] ∧ ∀ c ∈ w, pyIsWordChar c = true ∧ (c ∈ acc ∨ c ∈ l) := by
  induction l with
  | nil =>
    intro acc hacc w hw
    simp only [pyWordsAux] at hw
    rcases mem_pyWordsFlush acc [] w hw with ⟨hne, rfl⟩ | h1
    · refine ⟨by simpa using hne, ?_⟩
      intro c hc
      exact ⟨hacc c (List.mem_reverse.mp hc), Or.inl (List.mem_reverse.mp hc)⟩
    · exact absurd h1 (List.not_mem_nil w)
  | cons d rest ih =>
    intro acc hacc w hw
    simp only [pyWordsAux] at hw
    by_cases hd : pyIsWordChar d = true
    · rw [if_pos hd] at hw
      have hacc2 : ∀ c ∈ d :: acc, pyIsWordChar c = true := by
        intro c hc
        rcases List.mem_cons.mp hc with rfl | hc2
        · exact hd
        · exact hacc c hc2
      obtain ⟨hne, hall⟩ := ih (d :: acc) hacc2 w hw
      refine ⟨hne, ?_⟩
      intro c hc
      obtain ⟨hword, hmem⟩ := hall c hc
      refine ⟨hword, ?_⟩
      rcases hmem with hm | hm
      · rcases List.mem_cons.mp hm with rfl | hm2
        · exact Or.inr (by simp)
        · exact Or.inl hm2
      · exact Or.inr (by simp [hm])
    · rw [if_neg hd] at hw
      rcases mem_pyWordsFlush acc _ w hw with ⟨hne, rfl⟩ | h1
      · refine ⟨by simpa using hne, ?_⟩
        intro c hc
        exact ⟨hacc c (List.mem_reverse.mp hc), Or.inl (List.mem_reverse.mp hc)⟩
      · obtain ⟨hne, hall⟩ := ih [] (by simp) w h1
        refine ⟨hne, ?_⟩
        intro c hc
        obtain ⟨hword, hmem⟩ := hall c hc
        refine ⟨hword, Or.inr ?_⟩
        rcases hmem with hm | hm
        · exact absurd hm (List.not_mem_nil c)
        · exact by simp [hm]

theorem pyWordsL_chars (l : List Char) (w : List Char) (hw : w ∈ pyWordsL l) :
    w ≠ [] ∧ ∀ c ∈ w, pyIsWordChar c = true ∧ c ∈ l := by
  obtain ⟨hne, hall⟩ := pyWordsAux_chars l [] (by simp) w hw
  refine ⟨hne, ?_⟩
  intro c hc
  obtain ⟨hword, hmem⟩ := hall c hc
  refine ⟨hword, ?_⟩
  rcases hmem with hm | hm
  · exact absurd hm (List.not_mem_nil c)
  · exact hm

/-- Characters of a collapsed string are non-whitespace and come from the
input (or are the inserted underscore). -/
theorem collapseWsAux_chars (l : List Char) :
    ∀ (b : Bool) (c : Char), c ∈ collapseWsAux b l →
      pyIsSpace c = false ∧ (c = usc ∨ c ∈ l) := by
  induction l with
  | nil =>
    intro b c h
    simp [collapseWsAux] at h
  | cons d rest ih =>
    intro b c h
    simp only [collapseWsAux] at h
    by_cases hd : pyIsSpace d = true
    · rw [if_pos hd] at h
      cases b with
      | true =>
        simp only [if_pos rfl] at h
        obtain ⟨h1, h2⟩ := ih true c h
        exact ⟨h1, h2.imp id (fun hm => by simp [hm])⟩
      | false =>
        rw [if_neg (by decide : ¬ (false = true))] at h
        rcases List.mem_cons.mp h with rfl | h2
        · exact ⟨by decide, Or.inl rfl⟩
        · obtain ⟨h1, h3⟩ := ih true c h2
          exact ⟨h1, h3.imp id (fun hm => by simp [hm])⟩
    · rw [if_neg hd] at h
      rcases List.mem_cons.mp h with rfl | h2
      · exact ⟨by simpa using hd, Or.inr (by simp)⟩
      · obtain ⟨h1, h3⟩ := ih false c h2
        exact ⟨h1, h3.imp id (fun hm => by simp [hm])⟩

/-- A character of a lower-cased string is fixed by lowering. -/
theorem lower_mem_fixed {c : Char} {l : List Char} (h : c ∈ pyLowerL l) :
    pyLowerChar c = c := by
  unfold pyLowerL at h
  obtain ⟨d, _, rfl⟩ := List.mem_map.mp h
  exact pyLowerChar_idem d

/-- The normalised full form of a lower-cased name is fixed by
strip-then-lower (the normalisation `matches_allowed` applies first). -/
theorem collapse_lower_fixed (x : List Char) :
    pyStripL (pyLowerL (collapseWsL (pyLowerL x))) = collapseWsL (pyLowerL x) := by
  have hlow : pyLowerL (collapseWsL (pyLowerL x)) = collapseWsL (pyLowerL x) := by
    apply map_eq_self_of
    intro c hc
    rcases (collapseWsAux_chars (pyLowerL x) false c hc).2 with rfl | hm
    · decide
    · exact lower_mem_fixed hm
  rw [hlow]
  apply pyStripL_eq_self_of_no_space
  intro c hc
  exact (collapseWsAux_chars (pyLowerL x) false c hc).1

/-- A word of a lower-cased name is fixed by strip-then-lower. -/
theorem word_of_lower_fixed {w x : List Char} (hw : w ∈ pyWordsL (pyLowerL x)) :
    pyStripL (pyLowerL w) = w := by
  obtain ⟨_, hall⟩ := pyWordsL_chars _ w hw
  have hlow : pyLowerL w = w :=
    map_eq_self_of _ _ (fun c hc => lower_mem_fixed (hall c hc).2)
  rw [hlow]
  apply pyStripL_eq_self_of_no_space
  intro c hc
  exact pyIsWordChar_not_space c (hall c hc).1

/-- Every candidate the extractor produces is already lower-cased and free
of surrounding whitespace: the normalisation at the top of
`matches_allowed` leaves it unchanged. -/
theorem candidate_norm_fixed (sns : List Char) (c : List Char)
    (hc : c ∈ candidatesFromStripped sns) :
    pyStripL (pyLowerL c) = c := by
  unfold candidatesFromStripped at hc
  rcases List.mem_append.mp hc with hA | hB
  · obtain ⟨b2, _, hmem⟩ := List.mem_flatMap.mp hA
    rcases List.mem_cons.mp hmem with rfl | hw
    · exact collapse_lower_fixed b2
    · exact word_of_lower_fixed hw
  · obtain ⟨t, ht, rfl⟩ := List.mem_map.mp hB
    have ht2 : t ∈ pyWordsL (collapsePairsL (removeAsL
        (_extract_clause sns ("select".toList) [("from".toList)]))) ∨
        t ∈ pyWordsL (_extract_clause sns ("where".toList)
          [("group".toList), ("order".toList), ("limit".toList), (";".toList)]) := by
      rcases List.mem_append.mp ht with h1 | h1
      · exact Or.inl (List.mem_of_mem_filter h1)
      · exact Or.inr (List.mem_of_mem_filter h1)
    have hword : ∀ ch ∈ t, pyIsWordChar ch = true := by
      rcases ht2 with h1 | h1
      · exact fun ch hch => ((pyWordsL_chars _ t h1).2 ch hch).1
      · exact fun ch hch => ((pyWordsL_chars _ t h1).2 ch hch).1
    have hlow : pyLowerL (pyLowerL t) = pyLowerL t := pyLowerL_idem t
    rw [hlow]
    apply pyStripL_eq_self_of_no_space
    intro ch hch
    obtain ⟨d, hd, rfl⟩ := List.mem_map.mp hch
    exact pyIsWordChar_not_space _ (pyIsWordChar_pyLowerChar d (hword d hd))

/-! ## The matcher's decision rule -/

/-- Shared helper: extensional characterisation of `matches_allowed`. -/
theorem matches_allowed_iff (aw af : List (List Char)) (ident : List Char) :
    matches_allowed aw af ident = true ↔
      (isNumericL (pyStripL (pyLowerL ident)) = true ∨
       pyStripL (pyLowerL ident) ∈ af ∨
       pyStripL (pyLowerL ident) ∈ aw ∨
       (∃ w ∈ aw, w <+: pyStripL (pyLowerL ident) ∨ pyStripL (pyLowerL ident) <+: w) ∨
       (∃ w, (w ∈ aw ∨ w ∈ af) ∧
         (3 : ℚ) / 4 ≤ _similar (pyStripL (pyLowerL ident)) w)) := by
  unfold matches_allowed
  simp only [List.elem_iff, List.any_eq_true, Bool.or_eq_true,
    decide_eq_true_eq, List.isPrefixOf_iff_prefix]
  constructor
  · rintro (((((h | h) | h) | h) | ⟨w, hw, hs⟩) | ⟨w, hw, hs⟩)
    · exact Or.inl h
    · exact Or.inr (Or.inl h)
    · exact Or.inr (Or.inr (Or.inl h))
    · exact Or.inr (Or.inr (Or.inr (Or.inl h)))
    · exact Or.inr (Or.inr (Or.inr (Or.inr ⟨w, Or.inl hw, hs⟩)))
    · exact Or.inr (Or.inr (Or.inr (Or.inr ⟨w, Or.inr hw, hs⟩)))
  · rintro (h | h | h | h | ⟨w, hw | hw, hs⟩)
    · exact Or.inl (Or.inl (Or.inl (Or.inl (Or.inl h))))
    · exact Or.inl (Or.inl (Or.inl (Or.inl (Or.inr h))))
    · exact Or.inl (Or.inl (Or.inl (Or.inr h)))
    · exact Or.inl (Or.inl (Or.inr h))
    · exact Or.inl (Or.inr ⟨w, hw, hs⟩)
    · exact Or.inr ⟨w, hw, hs⟩

/-! ## Claims C4, C1, C7 -/

/-- C4: the fuzzy matcher accepts an identifier if and only if one of the
five rules applies to its normalised form (lower-cased, stripped):
(1) purely numeric; (2) member of `allowed_full`; (3) member of
`allowed_words`; (4) prefix of, or extended by, a member of
`allowed_words`; (5) similarity ratio ≥ 0.75 against a member of
`allowed_words` or `allowed_full`.  The source tests the rules in exactly
this order with early return; the Boolean chain of the embedding mirrors
that order, and this theorem characterises the resulting decision. -/
theorem C4_fuzzy_matcher_rule (aw af : List (List Char)) (ident : List Char) :
    matches_allowed aw af ident = true ↔
      (isNumericL (pyStripL (pyLowerL ident)) = true ∨
       pyStripL (pyLowerL ident) ∈ af ∨
       pyStripL (pyLowerL ident) ∈ aw ∨
       (∃ w ∈ aw, w <+: pyStripL (pyLowerL ident) ∨ pyStripL (pyLowerL ident) <+: w) ∨
       (∃ w, (w ∈ aw ∨ w ∈ af) ∧
         (3 : ℚ) / 4 ≤ _similar (pyStripL (pyLowerL ident)) w)) :=
  matches_allowed_iff aw af ident

/-- C1: for a column name `X` in the columns list, every candidate token a
verbatim (case-insensitive) reference to `X` can contribute — its
whitespace-collapsed full form (the backtick path) and every component word
of its lower-cased form (both the backtick and the clause-token paths) — is
classified as known by `matches_allowed`, so such a reference never
contributes to an "Invalid column used in query" error. -/
theorem C1_verbatim_column_allowed (cols : List (List Char)) (table : List Char)
    (X : List Char) (hX : X ∈ cols) :
    matches_allowed (buildAllowed cols table).1 (buildAllowed cols table).2
      (collapseWsL (pyLowerL X)) = true ∧
    ∀ w ∈ pyWordsL (pyLowerL X),
      matches_allowed (buildAllowed cols table).1 (buildAllowed cols table).2 w = true := by
  constructor
  · rw [matches_allowed_iff]
    refine Or.inr (Or.inl ?_)
    rw [collapse_lower_fixed X]
    unfold buildAllowed
    exact List.mem_append.mpr (Or.inl (List.mem_map.mpr ⟨X, hX, rfl⟩))
  · intro w hw
    rw [matches_allowed_iff]
    refine Or.inr (Or.inr (Or.inl ?_))
    rw [word_of_lower_fixed hw]
    unfold buildAllowed
    exact List.mem_append.mpr (Or.inl (List.mem_flatMap.mpr ⟨X, hX, hw⟩))

/-- Witness for C1 at the spec's example schema. -/
theorem C1_verbatim_column_allowed_witness :
    ("Candidate Last Name".toList ∈
      [("Roll_No".toList), ("Candidate Last Name".toList)]) ∧
    (matches_allowed
        (buildAllowed [("Roll_No".toList), ("Candidate Last Name".toList)]
          ("A4Zi".toList)).1
        (buildAllowed [("Roll_No".toList), ("Candidate Last Name".toList)]
          ("A4Zi".toList)).2
        (collapseWsL (pyLowerL ("Candidate Last Name".toList))) = true ∧
     ∀ w ∈ pyWordsL (pyLowerL ("Candidate Last Name".toList)),
       matches_allowed
          (buildAllowed [("Roll_No".toList), ("Candidate Last Name".toList)]
            ("A4Zi".toList)).1
          (buildAllowed [("Roll_No".toList), ("Candidate Last Name".toList)]
            ("A4Zi".toList)).2 w = true) :=
  ⟨by decide,
   C1_verbatim_column_allowed [("Roll_No".toList), ("Candidate Last Name".toList)]
     ("A4Zi".toList) ("Candidate Last Name".toList) (by decide)⟩

/-- C7 counterexample: with empty columns and table, the SQL
`select a1 from t where 1=0` has the non-numeric identifier `a1` in its
candidate set (surviving the keyword/length filters), yet the result is the
tautology rejection "Query cannot be created from the given input", not the
claimed "Invalid column used in query" — the always-false filter runs first
and preempts the identifier error. -/
theorem C7_preempted_counterexample :
    (("a1".toList) ∈ candidatesOf (pyStripL ("select a1 from t where 1=0".toList)) ∧
     survives ("a1".toList) = true ∧ isNumericL ("a1".toList) = false) ∧
    processSqlL ("select a1 from t where 1=0".toList) [] [] =
      Result.error "Query cannot be created from the given input" :=
  ⟨⟨by decide, by decide, by decide⟩, by decide⟩

/-- C7 (amended): with empty columns list and empty table name, every
generated SQL that does not match an always-false tautology pattern (which
preempts with its own message) and whose candidate set contains an
identifier surviving the keyword/length filters that is not purely numeric
is rejected with "Invalid column used in query": with no allowed names,
nothing non-numeric matches. -/
theorem C7_empty_schema_rejects (sql : List Char)
    (htaut : anyAlwaysFalseL (pyLowerL (pyStripL sql)) = false)
    (c : List Char) (hc : c ∈ candidatesOf (pyStripL sql))
    (hs : survives c = true) (hnum : isNumericL c = false) :
    processSqlL sql [] [] = Result.error "Invalid column used in query" := by
  have hne : (pyStripL sql).isEmpty = false := by
    cases hsE : (pyStripL sql).isEmpty
    · rfl
    · have h0 : pyStripL sql = [] := by simpa using hsE
      rw [h0] at hc
      rw [show candidatesOf ([] : List Char) = [] from rfl] at hc
      exact absurd hc (List.not_mem_nil _)
  have hm : matches_allowed [] [] c = false := by
    rw [Bool.eq_false_iff]
    intro ht
    rcases (matches_allowed_iff [] [] c).mp ht with h | h | h | ⟨w, hw, _⟩ | ⟨w, hw, _⟩
    · rw [candidate_norm_fixed _ c hc] at h
      rw [h] at hnum
      cases hnum
    · exact absurd h (List.not_mem_nil _)
    · exact absurd h (List.not_mem_nil _)
    · exact absurd hw (List.not_mem_nil _)
    · rcases hw with hw | hw
      · exact absurd hw (List.not_mem_nil _)
      · exact absurd hw (List.not_mem_nil _)
  have hunk : hasUnknown (buildAllowed [] []).1 (buildAllowed [] []).2
      (candidatesOf (pyStripL sql)) = true := by
    unfold hasUnknown
    rw [List.any_eq_true]
    refine ⟨c, hc, ?_⟩
    rw [hs]
    rw [show (buildAllowed ([] : List (List Char)) ([] : List Char)) = ([], []) from rfl]
    rw [hm]
    rfl
  unfold processSqlL
  simp only [hne, htaut, Bool.false_eq_true, if_false]
  by_cases hse : selfErrL (pyLowerL (pyStripL sql)) = true
  · simp [hse]
  · simp [hse, hunk]

/-- Witness for the amended C7: `select salary from t` with nothing allowed. -/
theorem C7_empty_schema_rejects_witness :
    (anyAlwaysFalseL (pyLowerL (pyStripL ("select salary from t".toList))) = false ∧
     ("salary".toList) ∈ candidatesOf (pyStripL ("select salary from t".toList)) ∧
     survives ("salary".toList) = true ∧ isNumericL ("salary".toList) = false) ∧
    processSqlL ("select salary from t".toList) [] [] =
      Result.error "Invalid column used in query" :=
  ⟨⟨by decide, by decide, by decide, by decide⟩,
   C7_empty_schema_rejects ("select salary from t".toList) (by decide)
     ("salary".toList) (by decide) (by decide) (by decide)⟩

/-! ## Literal stripping: supporting lemmas for C3 -/

theorem stripQAux_fuel (q : Char) :
    ∀ (f g : Nat) (l : List Char), l.length ≤ f → l.length ≤ g →
      stripQAux q f l = stripQAux q g l := by
  intro f
  induction f with
  | zero =>
    intro g l hf _
    have h0 : l = [] := List.eq_nil_of_length_eq_zero (Nat.le_zero.mp hf)
    subst h0
    simp [stripQAux]
  | succ f ih =>
    intro g l hf hg
    match l with
    | [] => simp [stripQAux]
    | c :: rest =>
      obtain ⟨g2, rfl⟩ : ∃ g2, g = g2 + 1 := ⟨g - 1, by simp at hg; omega⟩
      simp only [stripQAux]
      have hrest_f : rest.length ≤ f := by simp at hf; omega
      have hrest_g : rest.length ≤ g2 := by simp at hg; omega
      by_cases hc : c = q
      · rw [if_pos hc, if_pos hc]
        cases hm : litScan q rest with
        | some r =>
          have hr := litScan_length q rest r hm
          simp only [ih g2 r (hr.trans hrest_f) (hr.trans hrest_g)]
        | none => simp only [ih g2 rest hrest_f hrest_g]
      · rw [if_neg hc, if_neg hc, ih g2 rest hrest_f hrest_g]

theorem stripQAux_no_q (q : Char) :
    ∀ (l : List Char) (f : Nat), (∀ c ∈ l, ¬ c = q) → l.length ≤ f →
      stripQAux q f l = l := by
  intro l
  induction l with
  | nil => intro f _ _; simp [stripQAux]
  | cons c rest ih =>
    intro f h hf
    obtain ⟨f2, rfl⟩ : ∃ f2, f = f2 + 1 := ⟨f - 1, by simp at hf; omega⟩
    simp only [stripQAux]
    rw [if_neg (h c (by simp))]
    rw [ih f2 (fun d hd => h d (by simp [hd])) (by simp at hf; omega)]

theorem stripQAux_append_no_q (q : Char) :
    ∀ (pre rest : List Char) (f : Nat), (∀ c ∈ pre, ¬ c = q) →
      (pre ++ rest).length ≤ f →
      stripQAux q f (pre ++ rest) = pre ++ stripQAux q rest.length rest := by
  intro pre
  induction pre with
  | nil =>
    intro rest f _ hf
    simp only [List.nil_append]
    exact stripQAux_fuel q f rest.length rest (by simpa using hf) (Nat.le_refl _)
  | cons c pre2 ih =>
    intro rest f h hf
    obtain ⟨f2, rfl⟩ : ∃ f2, f = f2 + 1 := ⟨f - 1, by simp at hf; omega⟩
    simp only [List.cons_append, stripQAux]
    rw [if_neg (h c (by simp))]
    exact congrArg (fun t => c :: t)
      (ih rest f2 (fun d hd => h d (by simp [hd])) (by simp at hf ⊢; omega))

theorem litScan_body (q : Char) :
    ∀ (body post : List Char), (∀ c ∈ body, ¬ c = q) →
      (∀ c t, post = c :: t → ¬ c = q) →
      litScan q (body ++ q :: post) = some post := by
  intro body
  induction body with
  | nil =>
    intro post _ hp
    match post with
    | [] => simp [litScan]
    | p :: ps =>
      have hpq : ¬ p = q := hp p ps rfl
      simp only [List.nil_append, litScan]
      simp [hpq]
  | cons c body2 ih =>
    intro post hb hp
    have hcq : ¬ c = q := hb c (by simp)
    have hrec := ih post (fun d hd => hb d (by simp [hd])) hp
    cases hbp : body2 ++ q :: post with
    | nil => exact absurd hbp (by simp)
    | cons c2 rest2 =>
      rw [hbp] at hrec
      simp only [List.cons_append, hbp, litScan]
      rw [if_neg hcq]
      exact hrec

/-! ## Claim C3 (corrected): segment decomposition of SQL with literals

A SQL text is modelled as a concatenation of lexical segments: quote-free
plain text and quoted literals.  Well-formedness (`segsWellFormedB`) asks
that literal bodies and plain text are free of BOTH quote characters and
that no literal is directly followed (empty plain segments aside) by text
starting with its own quote character (which the regex would read as an
escaped doubled quote, merging adjacent literals).  Under these conditions
each substitution pass empties exactly the literals of its quoting style.
Without the body restriction the property fails — see the counterexample:
a quote of the other style inside a literal body can pair with a later
quote of its own style, swallowing the delimiters between them and
exposing literal contents to the tokenizer. -/

/-- One lexical segment of a SQL text: plain text, or the literal
`q ++ body ++ q`. -/
inductive Seg where
  | plain (s : List Char)
  | lit (q : Char) (body : List Char)

/-- Model of the text of a segment. -/
def segText : Seg → List Char
  | Seg.plain s => s
  | Seg.lit q body => q :: (body ++ [q])

/-- Concatenated text of a segment list. -/
def segsText : List Seg → List Char
  | [] => []
  | seg :: rest => segText seg ++ segsText rest

/-- Empty the bodies of the literals quoted by `q` (the intended effect of
one substitution pass). -/
def emptyQ (q : Char) : Seg → Seg
  | Seg.plain s => Seg.plain s
  | Seg.lit q2 body => if q2 = q then Seg.lit q2 [] else Seg.lit q2 body

/-- Empty every literal body. -/
def emptySeg : Seg → Seg
  | Seg.plain s => Seg.plain s
  | Seg.lit q _ => Seg.lit q []

/-- The same SQL with every literal replaced by an empty literal of its
quoting style. -/
def segsEmptied (segs : List Seg) : List Char := segsText (segs.map emptySeg)

/-- Does the text of the segment list begin with something other than the
quote `q` (empty plain segments skipped)?  Required after a `q`-literal so
that its closing quote is not misread as the start of an escaped doubled
quote. -/
def segHeadOk (q : Char) : List Seg → Bool
  | [] => true
  | Seg.plain [] :: rest => segHeadOk q rest
  | Seg.plain (_ :: _) :: _ => true
  | Seg.lit q2 _ :: _ => !(q2 = q)

/-- Per-pass well-formedness for quote `q`: every character outside the
delimiters of `q`-literals differs from `q`, and no `q`-literal is directly
followed by text starting with `q`. -/
def segsOkB (q : Char) : List Seg → Bool
  | [] => true
  | Seg.plain s :: rest => s.all (fun c => !(c = q)) && segsOkB q rest
  | Seg.lit q2 body :: rest =>
    body.all (fun c => !(c = q)) && (!(q2 = q) || segHeadOk q rest) && segsOkB q rest

/-- Segment well-formedness for the full two-pass substitution: literal
quotes are one of the two styles, plain text and literal bodies are free of
both quote characters, and no literal is directly followed by a literal of
the same style. -/
def segOkB : Seg → Bool
  | Seg.plain s => s.all (fun c => !(c = sqc) && !(c = dqc))
  | Seg.lit q body =>
    (q = sqc || q = dqc) && body.all (fun c => !(c = sqc) && !(c = dqc))

def adjOkB : List Seg → Bool
  | [] => true
  | Seg.plain _ :: rest => adjOkB rest
  | Seg.lit q _ :: rest => segHeadOk q rest && adjOkB rest

def segsWellFormedB (segs : List Seg) : Bool := segs.all segOkB && adjOkB segs

/-- Heads of per-pass well-formed segment texts differ from the quote. -/
theorem segsText_head_ne (q : Char) :
    ∀ (segs : List Seg), segsOkB q segs = true → segHeadOk q segs = true →
      ∀ c t, segsText segs = c :: t → ¬ c = q := by
  intro segs
  induction segs with
  | nil =>
    intro _ _ c t h
    simp [segsText] at h
  | cons seg rest ih =>
    intro hok hh c t h
    cases seg with
    | plain s =>
      cases s with
      | nil =>
        have hok2 : segsOkB q rest = true := by
          simp only [segsOkB, List.all_nil, Bool.true_and] at hok
          exact hok
        have hh2 : segHeadOk q rest = true := hh
        have h2 : segsText rest = c :: t := by simpa [segsText, segText] using h
        exact ih hok2 hh2 c t h2
      | cons d s2 =>
        have hd : ¬ d = q := by
          simp only [segsOkB, List.all_cons, Bool.and_eq_true] at hok
          simpa using hok.1.1
        have hc : c = d := by
          simp only [segsText, segText, List.cons_append] at h
          exact (List.cons.inj h).1.symm
        rw [hc]
        exact hd
    | lit q2 body =>
      have hq2 : ¬ q2 = q := by simpa [segHeadOk] using hh
      have hc : c = q2 := by
        simp only [segsText, segText, List.cons_append] at h
        exact (List.cons.inj h).1.symm
      rw [hc]
      exact hq2

/-- One substitution pass over a whole well-formed segment list: every
literal of the pass's quoting style is emptied, everything else is
untouched. -/
theorem stripQAux_segs (q : Char) :
    ∀ (segs : List Seg) (f : Nat), (segsText segs).length ≤ f →
      segsOkB q segs = true →
      stripQAux q f (segsText segs) = segsText (segs.map (emptyQ q)) := by
  intro segs
  induction segs with
  | nil =>
    intro f _ _
    simp [segsText, stripQAux]
  | cons seg rest ih =>
    intro f hf hok
    cases seg with
    | plain s =>
      simp only [segsOkB, Bool.and_eq_true] at hok
      obtain ⟨hs, hrest⟩ := hok
      have hs' : ∀ c ∈ s, ¬ c = q := by
        rw [List.all_eq_true] at hs
        intro c hc
        simpa using hs c hc
      show stripQAux q f (s ++ segsText rest) = _
      rw [stripQAux_append_no_q q s (segsText rest) f hs'
        (by simpa [segsText, segText] using hf)]
      rw [ih (segsText rest).length (Nat.le_refl _) hrest]
      rfl
    | lit q2 body =>
      simp only [segsOkB, Bool.and_eq_true] at hok
      obtain ⟨⟨hbody, hmid⟩, hrest⟩ := hok
      have hbody' : ∀ c ∈ body, ¬ c = q := by
        rw [List.all_eq_true] at hbody
        intro c hc
        simpa using hbody c hc
      by_cases hq2 : q2 = q
      · subst hq2
        have hhead : segHeadOk q2 rest = true := by simpa using hmid
        have hheadc : ∀ c t, segsText rest = c :: t → ¬ c = q2 :=
          segsText_head_ne q2 rest hrest hhead
        have hscan : litScan q2 (body ++ q2 :: segsText rest) = some (segsText rest) :=
          litScan_body q2 body (segsText rest) hbody' hheadc
        have htext : segsText (Seg.lit q2 body :: rest) =
            q2 :: (body ++ q2 :: segsText rest) := by
          simp [segsText, segText]
        obtain ⟨f2, rfl⟩ : ∃ f2, f = f2 + 1 := by
          refine ⟨f - 1, ?_⟩
          rw [htext] at hf
          simp at hf
          omega
        have hle : (segsText rest).length ≤ f2 := by
          rw [htext] at hf
          simp at hf
          omega
        have hrec : stripQAux q2 f2 (segsText rest) = segsText (rest.map (emptyQ q2)) := by
          rw [stripQAux_fuel q2 f2 (segsText rest).length _ hle (Nat.le_refl _)]
          exact ih (segsText rest).length (Nat.le_refl _) hrest
        rw [htext]
        simp [stripQAux, hscan, hrec, segsText, segText, emptyQ]
      · have hpre : ∀ c ∈ q2 :: (body ++ [q2]), ¬ c = q := by
          intro c hc
          rcases List.mem_cons.mp hc with rfl | h2
          · exact hq2
          · rcases List.mem_append.mp h2 with h3 | h3
            · exact hbody' c h3
            · rw [List.mem_singleton.mp h3]
              exact hq2
        show stripQAux q f ((q2 :: (body ++ [q2])) ++ segsText rest) = _
        rw [stripQAux_append_no_q q _ (segsText rest) f hpre
          (by simpa [segsText, segText] using hf)]
        rw [ih (segsText rest).length (Nat.le_refl _) hrest]
        simp [segsText, segText, emptyQ, hq2]

/-- Full well-formedness implies per-pass well-formedness for either
quote. -/
theorem segsOkB_of_wf (q : Char) (hq : q = sqc ∨ q = dqc) :
    ∀ segs : List Seg, segsWellFormedB segs = true → segsOkB q segs = true := by
  intro segs
  induction segs with
  | nil => intro _; rfl
  | cons seg rest ih =>
    intro h
    unfold segsWellFormedB at h
    simp only [List.all_cons, Bool.and_eq_true] at h
    obtain ⟨⟨hseg, hall⟩, hadj⟩ := h
    have hrest : segsWellFormedB rest = true := by
      unfold segsWellFormedB
      rw [Bool.and_eq_true]
      refine ⟨hall, ?_⟩
      cases seg with
      | plain s => simpa [adjOkB] using hadj
      | lit q2 b =>
        simp only [adjOkB, Bool.and_eq_true] at hadj
        exact hadj.2
    have ihr := ih hrest
    cases seg with
    | plain s =>
      have hs : ∀ c ∈ s, ¬ c = sqc ∧ ¬ c = dqc := by
        simp only [segOkB, List.all_eq_true] at hseg
        intro c hc
        have := hseg c hc
        simpa using this
      show (s.all (fun c => !(c = q)) && segsOkB q rest) = true
      rw [Bool.and_eq_true]
      refine ⟨?_, ihr⟩
      rw [List.all_eq_true]
      intro c hc
      rcases hq with rfl | rfl
      · simpa using (hs c hc).1
      · simpa using (hs c hc).2
    | lit q2 body =>
      have hb : ∀ c ∈ body, ¬ c = sqc ∧ ¬ c = dqc := by
        simp only [segOkB, Bool.and_eq_true, List.all_eq_true] at hseg
        intro c hc
        have := hseg.2 c hc
        simpa using this
      have hadj2 : segHeadOk q2 rest = true := by
        simp only [adjOkB, Bool.and_eq_true] at hadj
        exact hadj.1
      show (body.all (fun c => !(c = q)) && (!(q2 = q) || segHeadOk q rest) &&
        segsOkB q rest) = true
      simp only [Bool.and_eq_true]
      refine ⟨⟨?_, ?_⟩, ihr⟩
      · rw [List.all_eq_true]
        intro c hc
        rcases hq with rfl | rfl
        · simpa using (hb c hc).1
        · simpa using (hb c hc).2
      · by_cases hq2 : q2 = q
        · rw [hq2] at hadj2
          simp [hadj2]
        · simp [hq2]

theorem segHeadOk_map_emptyQ (q q2 : Char) :
    ∀ segs : List Seg, segHeadOk q2 (segs.map (emptyQ q)) = segHeadOk q2 segs := by
  intro segs
  induction segs with
  | nil => rfl
  | cons seg rest ih =>
    cases seg with
    | plain s =>
      cases s with
      | nil => simpa [emptyQ, segHeadOk] using ih
      | cons d s2 => simp [emptyQ, segHeadOk]
    | lit q3 body =>
      by_cases h : q3 = q <;> simp [emptyQ, segHeadOk, h]

theorem adjOkB_map_emptyQ (q : Char) :
    ∀ segs : List Seg, adjOkB (segs.map (emptyQ q)) = adjOkB segs := by
  intro segs
  induction segs with
  | nil => rfl
  | cons seg rest ih =>
    cases seg with
    | plain s => simpa [emptyQ, adjOkB] using ih
    | lit q2 body =>
      by_cases h : q2 = q <;>
        simp [emptyQ, adjOkB, h, segHeadOk_map_emptyQ, ih]

theorem segOkB_emptyQ (q : Char) (seg : Seg) (h : segOkB seg = true) :
    segOkB (emptyQ q seg) = true := by
  cases seg with
  | plain s => simpa [emptyQ] using h
  | lit q2 body =>
    by_cases hq2 : q2 = q
    · simp only [emptyQ, if_pos hq2]
      simp only [segOkB, Bool.and_eq_true] at h ⊢
      exact ⟨h.1, by simp⟩
    · simpa [emptyQ, hq2] using h

theorem segsWellFormedB_map_emptyQ (q : Char) (segs : List Seg)
    (h : segsWellFormedB segs = true) :
    segsWellFormedB (segs.map (emptyQ q)) = true := by
  unfold segsWellFormedB at h ⊢
  rw [Bool.and_eq_true] at h ⊢
  obtain ⟨hall, hadj⟩ := h
  constructor
  · rw [List.all_eq_true]
    intro x hx
    obtain ⟨seg, hseg, rfl⟩ := List.mem_map.mp hx
    exact segOkB_emptyQ q seg (List.all_eq_true.mp hall seg hseg)
  · rw [adjOkB_map_emptyQ]
    exact hadj

/-- On well-formed segments the two passes together empty every literal. -/
theorem map_emptyQ_both :
    ∀ segs : List Seg, segs.all segOkB = true →
      (segs.map (emptyQ sqc)).map (emptyQ dqc) = segs.map emptySeg := by
  intro segs
  induction segs with
  | nil => intro _; rfl
  | cons seg rest ih =>
    intro h
    simp only [List.all_cons, Bool.and_eq_true] at h
    obtain ⟨hseg, hall⟩ := h
    simp only [List.map_cons]
    rw [ih hall]
    congr 1
    cases seg with
    | plain s => rfl
    | lit q2 body =>
      have hq : q2 = sqc ∨ q2 = dqc := by
        simp only [segOkB, Bool.and_eq_true] at hseg
        simpa using hseg.1
      rcases hq with rfl | rfl
      · show emptyQ dqc (emptyQ sqc (Seg.lit sqc body)) = emptySeg (Seg.lit sqc body)
        rw [show emptyQ sqc (Seg.lit sqc body) = Seg.lit sqc [] from by simp [emptyQ]]
        show (if sqc = dqc then Seg.lit sqc [] else Seg.lit sqc []) = _
        rw [if_neg (by decide)]
        rfl
      · show emptyQ dqc (emptyQ sqc (Seg.lit dqc body)) = emptySeg (Seg.lit dqc body)
        rw [show emptyQ sqc (Seg.lit dqc body) = Seg.lit dqc body from by
          simp [emptyQ]
          intro hc
          exact absurd hc (by decide)]
        simp [emptyQ, emptySeg]

theorem emptySeg_idem (seg : Seg) : emptySeg (emptySeg seg) = emptySeg seg := by
  cases seg <;> rfl

theorem segsEmptied_map_emptySeg (segs : List Seg) :
    segsEmptied (segs.map emptySeg) = segsEmptied segs := by
  unfold segsEmptied
  rw [List.map_map]
  exact congrArg segsText (List.map_congr_left (fun s _ => emptySeg_idem s))

theorem segsWellFormedB_map_emptySeg (segs : List Seg)
    (h : segsWellFormedB segs = true) :
    segsWellFormedB (segs.map emptySeg) = true := by
  have hall : segs.all segOkB = true := by
    unfold segsWellFormedB at h
    rw [Bool.and_eq_true] at h
    exact h.1
  rw [← map_emptyQ_both segs hall]
  exact segsWellFormedB_map_emptyQ dqc _
    (segsWellFormedB_map_emptyQ sqc _ h)

/-- Both passes of lines 120–121 on a well-formed segment list: every
literal is emptied, nothing else changes. -/
theorem stripLiterals_segs (segs : List Seg) (h : segsWellFormedB segs = true) :
    stripLiteralsL (segsText segs) = segsEmptied segs := by
  have hall : segs.all segOkB = true := by
    unfold segsWellFormedB at h
    rw [Bool.and_eq_true] at h
    exact h.1
  unfold stripLiteralsL stripQL segsEmptied
  rw [stripQAux_segs sqc segs _ (Nat.le_refl _) (segsOkB_of_wf sqc (Or.inl rfl) segs h)]
  rw [stripQAux_segs dqc _ _ (Nat.le_refl _)
    (segsOkB_of_wf dqc (Or.inr rfl) _ (segsWellFormedB_map_emptyQ sqc segs h))]
  rw [map_emptyQ_both segs hall]

/-- The SQL text of the C3 counterexample:
`select "abc'def" from t where x = 'ghi'`. -/
def leakSql : List Char :=
  ("select ".toList) ++ dqc :: ("abc".toList) ++ sqc :: ("def".toList) ++ dqc ::
    (" from t where x = ".toList) ++ sqc :: ("ghi".toList) ++ [sqc]

/-- C3 counterexample: in `select "abc'def" from t where x = 'ghi'` the
token `abc` occurs only inside the double-quoted literal `"abc'def"` and
`ghi` only inside the single-quoted literal, yet BOTH are extracted as
candidate identifiers: the single-quote pass pairs the quote inside the
double-quoted literal with the opening quote of the later literal,
swallowing the delimiters between them and exposing both literal bodies to
the tokenizer.  This refutes the claim as stated, which quantifies over
every SQL containing string literals. -/
theorem C3_literal_leak_counterexample :
    ("abc".toList) ∈ candidatesOf leakSql ∧ ("ghi".toList) ∈ candidatesOf leakSql :=
  ⟨by decide, by decide⟩

/-- C3 (amended): for every SQL that decomposes into quote-free plain text
and single- or double-quoted literals whose bodies are free of both quote
characters, with no literal directly followed by a literal of the same
style (any number of literals, both styles, in any arrangement), the
candidate identifier set equals that of the same SQL with every literal
emptied: the substitutions of lines 120–121 run before backtick
extraction, clause extraction and tokenisation, so no token occurring only
inside such a literal ever appears among the candidates.  (The body
restriction is forced by the counterexample: a quote of the other style
inside a literal body defeats the two-pass substitution.) -/
theorem C3_literal_stripping_amended (segs : List Seg)
    (h : segsWellFormedB segs = true) :
    candidatesOf (segsText segs) = candidatesOf (segsEmptied segs) := by
  unfold candidatesOf
  rw [stripLiterals_segs segs h]
  rw [show segsEmptied segs = segsText (segs.map emptySeg) from rfl]
  rw [stripLiterals_segs (segs.map emptySeg) (segsWellFormedB_map_emptySeg segs h)]
  rw [segsEmptied_map_emptySeg]
  rfl

/-- Witness segment list: three literals of both styles with plain SQL
text between them. -/
def wSegs : List Seg :=
  [Seg.plain ("select x from t where y = ".toList),
   Seg.lit sqc ("error_column".toList),
   Seg.plain (" and z = ".toList),
   Seg.lit dqc ("select anything".toList),
   Seg.plain (" and w = ".toList),
   Seg.lit sqc ("abc".toList)]

/-- Witness for the amended C3 at a SQL text with three literals of both
quoting styles. -/
theorem C3_literal_stripping_amended_witness :
    segsWellFormedB wSegs = true ∧
    candidatesOf (segsText wSegs) = candidatesOf (segsEmptied wSegs) :=
  ⟨by decide, C3_literal_stripping_amended wSegs (by decide)⟩
